import Mathlib

/-!
Shallow embedding of the financial/utilization computation core of the
project-planner repository: the compensation model, month statistics,
project totals, the filtered calendar rollup of the dashboard, and the
per-person utilization matrix of the resourcing page.

JavaScript numbers are modelled as `Option ℚ`: `some q` is a finite number
and `none` stands for any non-finite value (NaN or an infinity, which is
also what `undefined` and non-numeric strings coerce to under `Number`;
`null` coerces to `0` and is therefore modelled as `some 0`).
-/

/-- A JavaScript runtime value, represented by the result of `Number(v)`:
`some q` when that result is finite, `none` otherwise. -/
abbrev JsVal := Option ℚ

/-- `toNumber` from `src/lib/storage.ts`:
`isFinite(Number(v)) ? Number(v) : fb`. -/
def toNumber (v : JsVal) (fb : ℚ) : ℚ := v.getD fb

/-- JavaScript addition: finite + finite is finite, anything else non-finite. -/
def jsAdd : JsVal → JsVal → JsVal
  | some a, some b => some (a + b)
  | _, _ => none

/-- JavaScript multiplication (idealised to exact rationals). -/
def jsMul : JsVal → JsVal → JsVal
  | some a, some b => some (a * b)
  | _, _ => none

/-- JavaScript subtraction. -/
def jsSub : JsVal → JsVal → JsVal
  | some a, some b => some (a - b)
  | _, _ => none

/-- JavaScript division: division by zero yields a non-finite value. -/
def jsDiv : JsVal → JsVal → JsVal
  | some a, some b => if b = 0 then none else some (a / b)
  | _, _ => none

/-- The `PersonType` union from `src/lib/types.ts`. -/
inductive PersonType where
  | fullTime
  | ftResource
  | partTime
  | ptResource
  | contractor
deriving DecidableEq

/-- The `FTCompMode` union. -/
inductive FTCompMode where
  | monthly
  | annual
deriving DecidableEq

/-- `isFullTimeLike` from `src/lib/storage.ts`. -/
def isFullTimeLike : PersonType → Bool
  | .fullTime => true
  | .ftResource => true
  | _ => false

/-- `RosterPerson`.  Compensation fields are runtime-untrusted numbers.
Fields that play no role in any computation here (e.g. free-text notes)
are omitted. -/
structure RosterPerson where
  id : String
  name : String
  personType : PersonType
  department : String
  compMode : Option FTCompMode
  monthlySalary : JsVal
  annualSalary : JsVal
  hourlyRate : JsVal
  baseMonthlyHours : JsVal
  isActive : Option Bool
  inactiveDate : Option String
deriving DecidableEq

/-- `MonthRow`: one project-month plan.  `personAllocations` is a JS object,
modelled as an association list in insertion order (keys unique in JS). -/
structure MonthRow where
  id : String
  label : String
  personAllocations : List (String × JsVal)
  expenses : JsVal
  revenue : JsVal
deriving DecidableEq

/-- `Project` (fields relevant to the computation core). -/
structure Project where
  id : String
  name : String
  projectStatus : String
  overheadPerHour : JsVal
  targetMarginPct : JsVal
  startMonthISO : String
  memberIds : List String
  months : List MonthRow
deriving DecidableEq

/-- `effectiveMonthlyComp` from `src/lib/storage.ts`. -/
def effectiveMonthlyComp (person : RosterPerson) : ℚ :=
  if isFullTimeLike person.personType then
    let mode := person.compMode.getD FTCompMode.monthly
    let monthly :=
      match mode with
      | .annual => toNumber person.annualSalary 0 / 12
      | .monthly => toNumber person.monthlySalary 0
    max 0 monthly
  else 0

/-- `effectiveHourlyRate` from `src/lib/storage.ts`. -/
def effectiveHourlyRate (person : RosterPerson) : ℚ :=
  if isFullTimeLike person.personType then
    effectiveMonthlyComp person / max 1 (toNumber person.baseMonthlyHours 160)
  else toNumber person.hourlyRate 0

/-- The record returned by `computeMonthStats`.  `hours`, `labor`,
`expenses` and `revenue` are always finite (they are sums of coerced
values), while `overhead` and `allIn` involve the uncoerced
`overheadPerHour` argument and may be non-finite. -/
structure MonthStats where
  hours : ℚ
  labor : ℚ
  overhead : JsVal
  expenses : ℚ
  allIn : JsVal
  revenue : ℚ
deriving DecidableEq

/-- `computeMonthStats` from `src/lib/storage.ts` (lines 222–252). -/
def computeMonthStats (people : List RosterPerson) (month : MonthRow)
    (overheadPerHour : JsVal) : MonthStats :=
  let hl := month.personAllocations.foldl
    (fun (acc : ℚ × ℚ) e =>
      match people.find? (fun x => x.id == e.1) with
      | none => acc
      | some p =>
        let h := toNumber p.baseMonthlyHours 0 * toNumber e.2 0 / 100
        (acc.1 + h, acc.2 + effectiveHourlyRate p * h)) (0, 0)
  let hours := hl.1
  let labor := hl.2
  let overhead := jsMul overheadPerHour (some hours)
  let expenses := toNumber month.expenses 0
  let revenue := toNumber month.revenue 0
  let allIn := jsAdd (jsAdd (some labor) overhead) (some expenses)
  ⟨hours, labor, overhead, expenses, allIn, revenue⟩

/-- The record returned by `computeProjectTotals`. -/
structure TotalsResult where
  totalHours : ℚ
  laborCost : ℚ
  overheadCost : JsVal
  expenses : ℚ
  allIn : JsVal
  revenue : ℚ
  profit : JsVal
  margin : JsVal
deriving DecidableEq

/-- `roster.filter((r) => project.memberIds.includes(r.id))`, the roster
restriction shared by `computeProjectTotals` and the calendar rollup. -/
def projectMembers (project : Project) (roster : List RosterPerson) :
    List RosterPerson :=
  roster.filter (fun r => project.memberIds.contains r.id)

/-- `computeProjectTotals` from `src/lib/storage.ts` (lines 257–291). -/
def computeProjectTotals (project : Project) (roster : List RosterPerson) :
    TotalsResult :=
  let people := projectMembers project roster
  let acc := project.months.foldl
    (fun (a : ℚ × ℚ × JsVal × ℚ × ℚ) m =>
      let s := computeMonthStats people m project.overheadPerHour
      (a.1 + s.hours, a.2.1 + s.labor, jsAdd a.2.2.1 s.overhead,
        a.2.2.2.1 + s.expenses, a.2.2.2.2 + s.revenue))
    (0, 0, some 0, 0, 0)
  let totalHours := acc.1
  let laborCost := acc.2.1
  let overheadCost := acc.2.2.1
  let expenses := acc.2.2.2.1
  let revenue := acc.2.2.2.2
  let allIn := jsAdd (jsAdd (some laborCost) overheadCost) (some expenses)
  let profit := jsSub (some revenue) allIn
  let margin := if 0 < revenue then jsDiv profit (some revenue) else some 0
  ⟨totalHours, laborCost, overheadCost, expenses, allIn, revenue, profit, margin⟩

/-- Two-digit zero padding, as `String(n).padStart(2, "0")` for `n ≤ 99`. -/
def pad2 (n : ℕ) : String :=
  if n < 10 then "0" ++ toString n else toString n

/-- `s.split("-")` for the single-character separator used by the code. -/
def splitDash (s : String) : List String :=
  (s.toList.foldr
    (fun c (acc : List (List Char)) =>
      if c = '-' then [] :: acc else (c :: acc.headD []) :: acc.tail)
    [[]]).map (fun cs => String.mk cs)

/-- Lexicographic order on code units, the JavaScript `<` on strings. -/
def charListLt : List Char → List Char → Bool
  | _, [] => false
  | [], _ :: _ => true
  | a :: as, b :: bs => a < b || (a == b && charListLt as bs)

/-- JavaScript string comparison `a < b`. -/
def strLt (a b : String) : Bool := charListLt a.toList b.toList

/-- Digit value of a character, when it is a decimal digit. -/
def digitVal? (c : Char) : Option ℕ :=
  if c.isDigit then some (c.toNat - 48) else none

/-- Parse an unsigned decimal numeral (the shape `Number` receives from
well-formed `YYYY-MM` strings); anything else is NaN, i.e. `none`. -/
def parseNatChars (cs : List Char) : Option ℕ :=
  if cs.isEmpty then none
  else
    cs.foldl
      (fun acc c =>
        match acc, digitVal? c with
        | some n, some d => some (n * 10 + d)
        | _, _ => none) (some 0)

/-- `Number` applied to a piece of a `YYYY-MM` string. -/
def toNatJS (s : String) : Option ℕ := parseNatChars s.toList

/-- `ymFromStartIndex` from `src/app/page.tsx` (lines 29–35): advance the
`YYYY-MM` start by `index` calendar months using `Date` normalisation,
i.e. floor-division year carry. -/
def ymFromStartIndex (startISO : String) (index : ℕ) : String :=
  match (splitDash startISO).map toNatJS with
  | [some y, some m] =>
    let t : ℤ := (y : ℤ) * 12 + ((m : ℤ) - 1) + (index : ℤ)
    toString (t.ediv 12) ++ "-" ++ pad2 (t.emod 12 + 1).toNat
  | _ => "NaN-NaN"

/-- English short month names, as produced by
`toLocaleString(undefined, { month: "short" })` in the default locale. -/
def monthShort : ℕ → String
  | 1 => "Jan" | 2 => "Feb" | 3 => "Mar" | 4 => "Apr"
  | 5 => "May" | 6 => "Jun" | 7 => "Jul" | 8 => "Aug"
  | 9 => "Sep" | 10 => "Oct" | 11 => "Nov" | 12 => "Dec"
  | _ => "Invalid"

/-- `labelFromYm` from the dashboard/resourcing pages. -/
def labelFromYm (ym : String) : String :=
  match (splitDash ym).map toNatJS with
  | [some y, some m] => monthShort m ++ " " ++ toString y
  | _ => "Invalid Date"

/-- `inYmRange` from the dashboard/resourcing pages; a missing or empty
bound (falsy in JS) is unbounded. -/
def inYmRange (ym : String) (s e : Option String) : Bool :=
  let startsBefore :=
    match s with
    | some str => str ≠ "" && strLt ym str
    | none => false
  let endsAfter :=
    match e with
    | some str => str ≠ "" && strLt str ym
    | none => false
  !startsBefore && !endsAfter

/-- `RollRow`, one calendar bucket of `buildCalendarRollupFiltered`.
`hours` and `labor` are sums of coerced values (finite); `overhead`,
`expenses`, `revenue` and `allIn` accumulate raw JS values. -/
structure RollRow where
  ym : String
  label : String
  labor : ℚ
  overhead : JsVal
  expenses : JsVal
  allIn : JsVal
  revenue : JsVal
  hours : ℚ
deriving DecidableEq

/-- The zero bucket created lazily for a calendar month. -/
def freshRollRow (ym : String) : RollRow :=
  ⟨ym, labelFromYm ym, 0, some 0, some 0, some 0, some 0, 0⟩

/-- The inner member loop of the rollup: this month's `(monthHours,
monthLabor)` over the project's members, skipping allocations ≤ 0
(`src/app/page.tsx` lines 94–104). -/
def monthHL (roster : List RosterPerson) (p : Project) (m : MonthRow) : ℚ × ℚ :=
  (projectMembers p roster).foldl
    (fun (acc : ℚ × ℚ) person =>
      let alloc := toNumber ((m.personAllocations.lookup person.id).getD (some 0)) 0
      if alloc ≤ 0 then acc
      else
        let base := toNumber person.baseMonthlyHours 0
        let hours := base * alloc / 100
        (acc.1 + hours, acc.2 + hours * effectiveHourlyRate person)) (0, 0)

/-- One project-month accumulation into a bucket
(`buildCalendarRollupFiltered` loop body, `src/app/page.tsx` lines 92–113). -/
def rollupAdd (roster : List RosterPerson) (p : Project) (m : MonthRow)
    (r : RollRow) : RollRow :=
  let hl := monthHL roster p m
  let monthOverhead := jsMul (some hl.1) p.overheadPerHour
  let r1 : RollRow :=
    { r with
      hours := r.hours + hl.1
      labor := r.labor + hl.2
      overhead := jsAdd r.overhead monthOverhead
      expenses := jsAdd r.expenses m.expenses
      revenue := jsAdd r.revenue m.revenue }
  { r1 with allIn := jsAdd (jsAdd (some r1.labor) r1.overhead) r1.expenses }

/-- Update the bucket map (`Map<string, RollRow>`): mutate in place when the
key exists, append a freshly created bucket otherwise (JS `Map` keeps
insertion order). -/
def updateRows (rows : List (String × RollRow)) (ym : String)
    (f : RollRow → RollRow) : List (String × RollRow) :=
  match rows with
  | [] => [(ym, f (freshRollRow ym))]
  | (k, r) :: rest =>
    if k = ym then (k, f r) :: rest else (k, r) :: updateRows rest ym f

/-- The nested `for p of projects / for i` traversal, flattened in order. -/
def rollupItems (projects : List Project) : List (Project × ℕ × MonthRow) :=
  projects.flatMap (fun p => p.months.enum.map (fun im => (p, im.1, im.2)))

/-- One step of the rollup fold: skip out-of-range months, otherwise
accumulate into the bucket of the month's calendar `ym`. -/
def rollupStep (roster : List RosterPerson) (startYm endYm : Option String)
    (rows : List (String × RollRow)) (it : Project × ℕ × MonthRow) :
    List (String × RollRow) :=
  let ym := ymFromStartIndex it.1.startMonthISO it.2.1
  if inYmRange ym startYm endYm then
    updateRows rows ym (rollupAdd roster it.1 it.2.2)
  else rows

/-- Insert a bucket into a `ym`-sorted list (the JS
`sort((a, b) => a.ym < b.ym ? -1 : 1)` on distinct keys). -/
def sortedInsertRow (b : RollRow) : List RollRow → List RollRow
  | [] => [b]
  | x :: xs => if strLt b.ym x.ym then b :: x :: xs else x :: sortedInsertRow b xs

/-- Sort buckets ascending by `ym`. -/
def sortRollRows (l : List RollRow) : List RollRow :=
  l.foldr sortedInsertRow []

/-- `buildCalendarRollupFiltered` from `src/app/page.tsx` (lines 64–118). -/
def buildCalendarRollupFiltered (projects : List Project)
    (roster : List RosterPerson) (startYm endYm : Option String) :
    List RollRow :=
  sortRollRows
    (((rollupItems projects).foldl (rollupStep roster startYm endYm) []).map
      (fun kv => kv.2))

/-- The project-months that land in calendar month `y`. -/
def bucketItems (projects : List Project) (y : String) :
    List (Project × ℕ × MonthRow) :=
  (rollupItems projects).filter
    (fun it => ymFromStartIndex it.1.startMonthISO it.2.1 == y)

/-- Specification-level reading of the `ym` filter range: the month is not
before a nonempty start bound and not after a nonempty end bound. -/
def inRangeSpec (ym : String) (s e : Option String) : Prop :=
  (∀ str, s = some str → str ≠ "" → strLt ym str = false) ∧
  (∀ str, e = some str → str ≠ "" → strLt str ym = false)

/-- `HeatCell` from `src/app/resourcing/page.tsx`: exactly the four fields
`ym`, `label`, `hours`, `util` — nothing else. -/
structure HeatCell where
  ym : String
  label : String
  hours : ℚ
  util : ℚ
deriving DecidableEq

/-- `HeatProjectRow`. -/
structure HeatProjectRow where
  project : Project
  cells : List HeatCell
  totalHours : ℚ
  avgUtil : ℚ
deriving DecidableEq

/-- The `total` aggregate of a person row. -/
structure HeatTotal where
  cells : List HeatCell
  totalHours : ℚ
  avgUtil : ℚ
deriving DecidableEq

/-- `HeatPersonRow`. -/
structure HeatPersonRow where
  person : RosterPerson
  total : HeatTotal
  byProject : List HeatProjectRow
deriving DecidableEq

/-- `HeatMonth`. -/
structure HeatMonth where
  ym : String
  label : String
deriving DecidableEq

/-- The `{ months, rows }` result of `buildUtilizationMatrixWithProjects`. -/
structure HeatMatrix where
  months : List HeatMonth
  rows : List HeatPersonRow
deriving DecidableEq

/-- The guarded hours contribution of one `personId` in one month
(`resourcing/page.tsx` lines 100–105): zero when the allocation is absent
or ≤ 0 or the person is not in the (filtered) people list. -/
def allocHours (people : List RosterPerson) (m : MonthRow) (personId : String) : ℚ :=
  let alloc := toNumber ((m.personAllocations.lookup personId).getD (some 0)) 0
  if alloc ≤ 0 then 0
  else
    match people.find? (fun r => r.id == personId) with
    | none => 0
    | some person => toNumber person.baseMonthlyHours 0 * alloc / 100

/-- `byPersonTotal[pid][ym]` of the utilization matrix, written as the sum
of all recorded contributions (absent entries read as 0). -/
def personTotalHours (projects : List Project) (people : List RosterPerson)
    (ms : List String) (pid ym : String) : ℚ :=
  projects.foldl
    (fun acc p =>
      p.months.enum.foldl
        (fun acc2 im =>
          let ym2 := ymFromStartIndex p.startMonthISO im.1
          if ms.contains ym2 then
            p.memberIds.foldl
              (fun a personId =>
                if personId == pid && ym2 == ym then
                  a + allocHours people im.2 personId
                else a) acc2
          else acc2) acc) 0

/-- `byPersonProject[pid][projId][ym]`, likewise as a sum. -/
def personProjectHours (projects : List Project) (people : List RosterPerson)
    (ms : List String) (pid projId ym : String) : ℚ :=
  projects.foldl
    (fun acc p =>
      p.months.enum.foldl
        (fun acc2 im =>
          let ym2 := ymFromStartIndex p.startMonthISO im.1
          if ms.contains ym2 then
            p.memberIds.foldl
              (fun a personId =>
                if personId == pid && p.id == projId && ym2 == ym then
                  a + allocHours people im.2 personId
                else a) acc2
          else acc2) acc) 0

/-- `isPersonInactiveInMonth` from `src/app/resourcing/page.tsx`
(lines 188–195). -/
def isPersonInactiveInMonth (person : RosterPerson) (ym : String) : Bool :=
  if person.isActive != some false then false
  else
    match person.inactiveDate with
    | none => false
    | some d => if d = "" then false else !strLt (ym ++ "-01") d

/-- The calendar months touched by the projects inside the filter window,
in traversal order with repeats (before `Set` dedup and sorting). -/
def touchedYms (projects : List Project) (startYm endYm : Option String) :
    List String :=
  projects.flatMap
    (fun p =>
      (p.months.enum.map (fun im => ymFromStartIndex p.startMonthISO im.1)).filter
        (fun ym => inYmRange ym startYm endYm))

/-- First-occurrence deduplication with the already-seen keys carried
along (JS `Set` insertion semantics). -/
def dedupFirstAux (seen : List String) : List String → List String
  | [] => []
  | x :: xs =>
    if seen.contains x then dedupFirstAux seen xs
    else x :: dedupFirstAux (x :: seen) xs

/-- First-occurrence deduplication. -/
def dedupFirst (l : List String) : List String := dedupFirstAux [] l

/-- Insert a string into a sorted list. -/
def sortedInsertStr (s : String) : List String → List String
  | [] => [s]
  | x :: xs => if strLt s x then s :: x :: xs else x :: sortedInsertStr s xs

/-- Lexicographic ascending sort (JS default `Array.sort()` on strings). -/
def sortStrings (l : List String) : List String :=
  l.foldr sortedInsertStr []

/-- The matrix's sorted distinct column months. -/
def utilMonths (projects : List Project) (startYm endYm : Option String) :
    List String :=
  sortStrings (dedupFirst (touchedYms projects startYm endYm))

/-- The people filter: `selectedPeople` is a set of ids or `null`. -/
def utilPeople (roster : List RosterPerson) (sel : Option (List String)) :
    List RosterPerson :=
  match sel with
  | some ids => roster.filter (fun r => ids.contains r.id)
  | none => roster

/-- Build one person's row: total cells over the month columns, then the
per-project breakdown restricted to projects with some positive hours. -/
def mkPersonRow (projects : List Project) (people : List RosterPerson)
    (ms : List String) (person : RosterPerson) : HeatPersonRow :=
  let base := max 1 (toNumber person.baseMonthlyHours 0)
  let totalCells := ms.map
    (fun ym =>
      let hours := personTotalHours projects people ms person.id ym
      (⟨ym, labelFromYm ym, hours, hours / base⟩ : HeatCell))
  let totalHours := totalCells.foldl (fun s c => s + c.hours) 0
  let avgUtil :=
    if totalCells.length ≠ 0 then
      totalCells.foldl (fun s c => s + c.util) 0 / (totalCells.length : ℚ)
    else 0
  let byProject :=
    (projects.filter
      (fun p =>
        ms.any
          (fun ym =>
            decide (0 < personProjectHours projects people ms person.id p.id ym)))).map
      (fun p =>
        let cells := ms.map
          (fun ym =>
            let hours := personProjectHours projects people ms person.id p.id ym
            (⟨ym, labelFromYm ym, hours, hours / base⟩ : HeatCell))
        let th := cells.foldl (fun s c => s + c.hours) 0
        let au :=
          if cells.length ≠ 0 then
            cells.foldl (fun s c => s + c.util) 0 / (cells.length : ℚ)
          else 0
        (⟨p, cells, th, au⟩ : HeatProjectRow))
  ⟨person, ⟨totalCells, totalHours, avgUtil⟩, byProject⟩

/-- The `rows` local of `buildUtilizationMatrixWithProjects`, before the
visibility filter. -/
def utilRows (projects : List Project) (roster : List RosterPerson)
    (sel : Option (List String)) (startYm endYm : Option String) :
    List HeatPersonRow :=
  let ms := utilMonths projects startYm endYm
  let people := utilPeople roster sel
  people.map (mkPersonRow projects people ms)

/-- `shouldShowPerson`: the person has some positive hours in a visible
month, or is active in some visible month. -/
def shouldShowPerson (projects : List Project) (people : List RosterPerson)
    (ms : List String) (person : RosterPerson) : Bool :=
  ms.any (fun ym => decide (0 < personTotalHours projects people ms person.id ym)) ||
  ms.any (fun ym => !(isPersonInactiveInMonth person ym))

/-- `buildUtilizationMatrixWithProjects` from `src/app/resourcing/page.tsx`
(lines 55–174). -/
def buildUtilizationMatrixWithProjects (projects : List Project)
    (roster : List RosterPerson) (sel : Option (List String))
    (startYm endYm : Option String) : HeatMatrix :=
  if projects.isEmpty then ⟨[], []⟩
  else
    let ms := utilMonths projects startYm endYm
    let people := utilPeople roster sel
    let rows := utilRows projects roster sel startYm endYm
    let visible := rows.filter (fun row => shouldShowPerson projects people ms row.person)
    ⟨ms.map (fun ym => ⟨ym, labelFromYm ym⟩), visible⟩

/-! Derived forms used to reason about the folds. -/

/-- The calendar month of one traversal item. -/
def itemYm (it : Project × ℕ × MonthRow) : String :=
  ymFromStartIndex it.1.startMonthISO it.2.1

/-- Accumulate a list of project-month contributions into one bucket. -/
def applyContribs (roster : List RosterPerson) (r : RollRow)
    (cs : List (Project × ℕ × MonthRow)) : RollRow :=
  cs.foldl (fun acc it => rollupAdd roster it.1 it.2.2 acc) r

/-- Weighted per-allocation-entry term of the `computeMonthStats` fold. -/
def allocTermW (w : RosterPerson → ℚ) (people : List RosterPerson)
    (e : String × JsVal) : ℚ :=
  match people.find? (fun x => x.id == e.1) with
  | none => 0
  | some p => w p * toNumber e.2 0 / 100

/-- Weighted per-member term of the rollup inner loop. -/
def memberTermW (w : RosterPerson → ℚ) (allocs : List (String × JsVal))
    (person : RosterPerson) : ℚ :=
  let a := toNumber ((allocs.lookup person.id).getD (some 0)) 0
  if a ≤ 0 then 0 else w person * a / 100

/-- Sum of JS values starting from 0 (NaN-absorbing). -/
def jsSum (l : List JsVal) : JsVal := l.foldl jsAdd (some 0)

/-! Concrete inputs used by the claim instances below. -/

/-- Scenario A person: Full-Time, monthly mode, 8000/month, 160 base hours. -/
def scenarioPerson : RosterPerson :=
  ⟨"p1", "P", .fullTime, "Engineering", some .monthly, some 8000, none, none,
    some 160, none, none⟩

/-- Scenario A month: person `p1` allocated 50%, no expenses, no revenue. -/
def scenarioMonth : MonthRow := ⟨"m1", "Nov 2024", [("p1", some 50)], some 0, some 0⟩

/-- A project whose only month has zero revenue but nonzero expenses. -/
def zeroRevenueProject : Project :=
  ⟨"pr2", "Z", "Active", some 3, some 0, "2024-01", [],
    [⟨"m2", "", [], some 5, some 0⟩]⟩

/-- A contractor stored with a negative hourly rate. -/
def negRatePerson : RosterPerson :=
  ⟨"c1", "C", .contractor, "Ops", none, none, none, some (-10), some 160, none, none⟩

/-- A contractor with an ordinary hourly rate. -/
def contractorPerson : RosterPerson :=
  ⟨"c2", "D", .contractor, "Ops", none, none, none, some 35, some 160, none, none⟩

/-- A month with a dangling allocation entry (`ghost` is in no roster). -/
def danglingMonth : MonthRow :=
  ⟨"m4", "", [("ghost", some 50), ("p1", some 50)], some 0, some 0⟩

/-- The same month with the dangling entry removed. -/
def cleanMonth : MonthRow := ⟨"m4", "", [("p1", some 50)], some 0, some 0⟩

/-- A project starting 2024-11 with three months (year-carry scenario). -/
def carryProject : Project :=
  ⟨"pr5", "C", "Active", some 0, some 0, "2024-11", [],
    [⟨"ma", "", [], some 0, some 0⟩, ⟨"mb", "", [], some 0, some 0⟩,
      ⟨"mc", "", [], some 0, some 0⟩]⟩

/-- A project with zero months. -/
def emptyProject : Project :=
  ⟨"pr0", "E", "Active", some 0, some 0, "2024-11", [], []⟩

/-- A month holding a negative allocation value. -/
def negAllocMonth : MonthRow := ⟨"m6", "", [("p1", some (-50))], some 0, some 0⟩

/-- A project whose only month has the negative allocation. -/
def negAllocProject : Project :=
  ⟨"pr6", "N", "Active", some 0, some 0, "2024-01", ["p1"], [negAllocMonth]⟩

/-- A well-formed project-month for the rollup agreement instance. -/
def rollupWitnessMonth : MonthRow :=
  ⟨"m7", "", [("p1", some 50)], some 7, some 100⟩

/-- Its project: overhead 10 $/h, start 2024-11, member `p1`. -/
def rollupWitnessProject : Project :=
  ⟨"pr7", "W", "Active", some 10, some 0, "2024-11", ["p1"], [rollupWitnessMonth]⟩

/-- A person with 160 base hours used for the overallocation scenario. -/
def overAllocPerson : RosterPerson :=
  ⟨"p1", "P", .contractor, "Engineering", none, none, none, some 0, some 160,
    none, none⟩

/-- A month allocating 150% of `p1`. -/
def overAllocMonth : MonthRow := ⟨"m8", "", [("p1", some 150)], some 0, some 0⟩

/-- Its project, starting 2024-05. -/
def overAllocProject : Project :=
  ⟨"pr8", "O", "Active", some 0, some 0, "2024-05", ["p1"], [overAllocMonth]⟩

/-- A month with no allocations and zero expenses/revenue. -/
def blankMonth : MonthRow := ⟨"m9", "", [], some 0, some 0⟩

/-- A month allocating 50% of `p1` (membership experiments). -/
def allocOnlyMonth : MonthRow := ⟨"m10", "", [("p1", some 50)], some 0, some 0⟩

/-- A project with that allocation but an empty member list. -/
def nonMemberProject : Project :=
  ⟨"pr9", "M", "Active", some 0, some 0, "2024-01", [], [allocOnlyMonth]⟩

/-- The same project with `p1` listed as a member. -/
def memberProject : Project :=
  ⟨"pr9", "M", "Active", some 0, some 0, "2024-01", ["p1"], [allocOnlyMonth]⟩

/-- An inactive person (inactive since 2024-01-01) with allocations. -/
def inactivePerson : RosterPerson :=
  ⟨"p1", "P", .contractor, "Engineering", none, none, none, some 0, some 160,
    some false, some "2024-01-01"⟩

/-- The same person with the activity flag set to active. -/
def activePerson : RosterPerson :=
  ⟨"p1", "P", .contractor, "Engineering", none, none, none, some 0, some 160,
    some true, some "2024-01-01"⟩

/-- A month in 2024-03 allocating 100% of `p1`. -/
def marchMonth : MonthRow := ⟨"m11", "", [("p1", some 100)], some 0, some 0⟩

/-- Its project. -/
def marchProject : Project :=
  ⟨"pr10", "I", "Active", some 0, some 0, "2024-03", ["p1"], [marchMonth]⟩

/-! Basic lemmas about the JS value model. -/

theorem toNumber_some (q fb : ℚ) : toNumber (some q) fb = q := rfl

theorem toNumber_none (fb : ℚ) : toNumber none fb = fb := rfl

theorem jsAdd_some (a b : ℚ) : jsAdd (some a) (some b) = some (a + b) := rfl

theorem jsMul_comm (a b : JsVal) : jsMul a b = jsMul b a := by
  cases a <;> cases b <;> simp [jsMul, mul_comm]

/-! Dangling allocation entries are skipped by `computeMonthStats`. -/

theorem cms_dangling (people : List RosterPerson) (oph : JsVal)
    (mid mlabel : String) (l1 l2 : List (String × JsVal)) (pid : String)
    (v : JsVal) (exps rev : JsVal) (h : ∀ p ∈ people, p.id ≠ pid) :
    computeMonthStats people ⟨mid, mlabel, l1 ++ (pid, v) :: l2, exps, rev⟩ oph
      = computeMonthStats people ⟨mid, mlabel, l1 ++ l2, exps, rev⟩ oph := by
  have hf : people.find? (fun x => x.id == pid) = none := by
    rw [List.find?_eq_none]
    intro x hx
    simpa using h x hx
  simp [computeMonthStats, List.foldl_append, hf]

/-- Claim C1: for the Scenario A person (Full-Time, monthly compMode,
monthlySalary 8000, baseMonthlyHours 160) the effective hourly rate is 50,
and `computeMonthStats` on a month allocating that person 50% with
expenses 0 and overheadPerHour 10 returns hours 80, labor 4000,
overhead 800 and allIn 4800. -/
theorem claim_C1 :
    effectiveHourlyRate scenarioPerson = 50 ∧
    computeMonthStats [scenarioPerson] scenarioMonth (some 10) =
      ⟨80, 4000, some 800, 0, some 4800, 0⟩ := by
  constructor
  · simp +decide [effectiveHourlyRate, effectiveMonthlyComp, isFullTimeLike,
      toNumber, scenarioPerson]
    norm_num
  · simp +decide [computeMonthStats, scenarioMonth, scenarioPerson, toNumber,
      jsMul, jsAdd, effectiveHourlyRate, effectiveMonthlyComp, isFullTimeLike]
    norm_num

/-- Claim C2: whenever the summed revenue of a project is 0,
`computeProjectTotals` returns margin exactly `some 0` (a finite zero,
never NaN or an infinity), independently of the cost values: the division
`profit / revenue` is only taken when revenue is positive. -/
theorem claim_C2 (project : Project) (roster : List RosterPerson)
    (h : (computeProjectTotals project roster).revenue = 0) :
    (computeProjectTotals project roster).margin = some 0 := by
  simp only [computeProjectTotals] at h ⊢
  rw [h]
  simp

theorem claim_C2_witness :
    (computeProjectTotals zeroRevenueProject []).margin = some 0 := by
  apply claim_C2
  simp [computeProjectTotals, zeroRevenueProject, computeMonthStats,
    projectMembers, toNumber]

/-- Claim C3 counterexample: a Contractor stored with hourlyRate −10 gets
effective hourly rate −10 < 0, so `effectiveHourlyRate` is not ≥ 0 on
every input with negative compensation fields. -/
theorem claim_C3_counterexample : effectiveHourlyRate negRatePerson < 0 := by
  decide

/-- Claim C3 (amended): `effectiveHourlyRate` always returns a well-defined
rational (it is total; in this model every result is finite by
construction), and it is nonnegative whenever the person is salaried-like
or the coerced hourlyRate is nonnegative; an hourly-like person with a
negative stored hourlyRate receives that negative rate unchanged. -/
theorem claim_C3 (person : RosterPerson)
    (h : isFullTimeLike person.personType = true ∨
      0 ≤ toNumber person.hourlyRate 0) :
    0 ≤ effectiveHourlyRate person := by
  unfold effectiveHourlyRate
  cases hft : isFullTimeLike person.personType with
  | true =>
    simp only [if_pos rfl, hft, if_true]
    apply div_nonneg
    · unfold effectiveMonthlyComp
      simp [hft]
    · exact le_trans zero_le_one (le_max_left 1 _)
  | false =>
    simp only [hft, if_false, Bool.false_eq_true]
    rcases h with h | h
    · rw [hft] at h
      exact absurd h (by simp)
    · exact h

theorem claim_C3_witness : 0 ≤ effectiveHourlyRate contractorPerson :=
  claim_C3 contractorPerson (Or.inr (by decide))

/-- Claim C4: an allocation entry whose person id is absent from the
supplied roster is silently skipped: `computeMonthStats` over a month with
such an entry equals `computeMonthStats` over the same month with the
entry removed. -/
theorem claim_C4 (people : List RosterPerson) (oph : JsVal)
    (mid mlabel : String) (l1 l2 : List (String × JsVal)) (pid : String)
    (v : JsVal) (exps rev : JsVal) (h : ∀ p ∈ people, p.id ≠ pid) :
    computeMonthStats people ⟨mid, mlabel, l1 ++ (pid, v) :: l2, exps, rev⟩ oph
      = computeMonthStats people ⟨mid, mlabel, l1 ++ l2, exps, rev⟩ oph :=
  cms_dangling people oph mid mlabel l1 l2 pid v exps rev h

theorem claim_C4_witness :
    computeMonthStats [scenarioPerson] danglingMonth (some 10)
      = computeMonthStats [scenarioPerson] cleanMonth (some 10) :=
  claim_C4 [scenarioPerson] (some 10) "m4" "" [] [("p1", some 50)] "ghost"
    (some 50) (some 0) (some 0) (by decide)

/-- Claim C8 counterexample: `computeMonthStats` does NOT coerce the
`overheadPerHour` argument: with a non-numeric overhead rate the returned
`overhead` is non-finite (NaN) and the result differs from the result with
the rate replaced by 0, even on an empty month. -/
theorem claim_C8_counterexample :
    (computeMonthStats [] blankMonth none).overhead = none ∧
    computeMonthStats [] blankMonth none ≠ computeMonthStats [] blankMonth (some 0) := by
  constructor
  · rfl
  · decide

/-- Claim C8 (amended): `computeMonthStats` coerces every allocation value
and the month's `expenses` and `revenue` — replacing any of them by its
coerced numeric value (0 for undefined/NaN/non-numeric, the number itself
otherwise) leaves the result unchanged, and with a finite `overheadPerHour`
every returned field is finite.  The `overheadPerHour` argument itself is
not coerced: a non-finite rate propagates into `overhead` and `allIn`. -/
theorem claim_C8 (people : List RosterPerson) (oph : JsVal)
    (mid mlabel : String) (l1 l2 : List (String × JsVal)) (pid : String)
    (v : JsVal) (exps rev : JsVal) :
    (computeMonthStats people ⟨mid, mlabel, l1 ++ (pid, v) :: l2, exps, rev⟩ oph
      = computeMonthStats people
          ⟨mid, mlabel, l1 ++ (pid, some (toNumber v 0)) :: l2, exps, rev⟩ oph)
    ∧ (computeMonthStats people ⟨mid, mlabel, l1 ++ (pid, v) :: l2, exps, rev⟩ oph
      = computeMonthStats people
          ⟨mid, mlabel, l1 ++ (pid, v) :: l2, some (toNumber exps 0),
            some (toNumber rev 0)⟩ oph)
    ∧ (∀ q : ℚ, oph = some q →
        (computeMonthStats people ⟨mid, mlabel, l1 ++ (pid, v) :: l2, exps, rev⟩
            oph).overhead.isSome = true
        ∧ (computeMonthStats people ⟨mid, mlabel, l1 ++ (pid, v) :: l2, exps, rev⟩
            oph).allIn.isSome = true) := by
  refine ⟨?_, ?_, ?_⟩
  · cases hf : people.find? (fun x => x.id == pid) <;>
      simp [computeMonthStats, List.foldl_append, hf, toNumber]
  · simp [computeMonthStats, toNumber]
  · intro q hq
    subst hq
    constructor <;> simp [computeMonthStats, jsMul, jsAdd]

theorem claim_C8_witness :
    (computeMonthStats [] ⟨"mw", "", [("p1", none)], some 1, none⟩
        (some 2)).overhead.isSome = true := by
  have h := claim_C8 [] (some 2) "mw" "" [] [] "p1" none (some 1) none
  exact (h.2.2 2 rfl).1

/-- Claim C7: utilization is uncapped.  Every cell of a per-person row of
`buildUtilizationMatrixWithProjects` has `util` equal to `hours` divided by
`max 1` of the person's own coerced base monthly hours (no clamping
anywhere), so whenever the base is at least 1 and the month's hours exceed
it, the cell's `util` is strictly greater than 1. -/
theorem claim_C7 (projects : List Project) (roster : List RosterPerson)
    (sel : Option (List String)) (s e : Option String) (row : HeatPersonRow)
    (hrow : row ∈ (buildUtilizationMatrixWithProjects projects roster sel s e).rows)
    (cell : HeatCell) (hcell : cell ∈ row.total.cells) :
    cell.util = cell.hours / max 1 (toNumber row.person.baseMonthlyHours 0)
    ∧ (1 ≤ toNumber row.person.baseMonthlyHours 0 →
        toNumber row.person.baseMonthlyHours 0 < cell.hours → 1 < cell.util) := by
  cases hp : projects.isEmpty with
  | true =>
    exfalso
    simp [buildUtilizationMatrixWithProjects, hp] at hrow
  | false =>
    simp only [buildUtilizationMatrixWithProjects, hp, Bool.false_eq_true,
      if_false] at hrow
    have hrow2 := (List.mem_filter.mp hrow).1
    rw [utilRows] at hrow2
    obtain ⟨person, hmem, rfl⟩ := List.mem_map.mp hrow2
    simp only [mkPersonRow] at hcell ⊢
    obtain ⟨ym, hym, rfl⟩ := List.mem_map.mp hcell
    refine ⟨rfl, ?_⟩
    intro h1 h2
    have hb0 : (0 : ℚ) < max 1 (toNumber person.baseMonthlyHours 0) :=
      lt_of_lt_of_le zero_lt_one (le_max_left 1 _)
    have hbp : max 1 (toNumber person.baseMonthlyHours 0)
        = toNumber person.baseMonthlyHours 0 := max_eq_right h1
    simp only [hbp] at hb0 ⊢
    exact (one_lt_div hb0).mpr h2

set_option maxHeartbeats 1000000 in
theorem claim_C7_witness :
    (⟨"2024-05", "May 2024", 240, 3 / 2⟩ : HeatCell) ∈
        (mkPersonRow [overAllocProject] [overAllocPerson] ["2024-05"]
            overAllocPerson).total.cells
    ∧ (1 : ℚ) <
        HeatCell.util (⟨"2024-05", "May 2024", 240, 3 / 2⟩ : HeatCell) := by
  have hms : utilMonths [overAllocProject] none none = ["2024-05"] := by decide
  have hhours : personTotalHours [overAllocProject] [overAllocPerson] ["2024-05"]
      "p1" "2024-05" = 240 := by
    simp +decide [personTotalHours, allocHours, overAllocProject, overAllocPerson,
      overAllocMonth, List.enum, toNumber]
    norm_num
  have hcells : (mkPersonRow [overAllocProject] [overAllocPerson] ["2024-05"]
      overAllocPerson).total.cells = [⟨"2024-05", "May 2024", 240, 3 / 2⟩] := by
    simp only [overAllocPerson] at hhours
    simp +decide [mkPersonRow, overAllocPerson, toNumber, hhours, labelFromYm,
      splitDash, toNatJS, parseNatChars, digitVal?, monthShort]
    norm_num
  have hcell : (⟨"2024-05", "May 2024", 240, 3 / 2⟩ : HeatCell) ∈
      (mkPersonRow [overAllocProject] [overAllocPerson] ["2024-05"]
          overAllocPerson).total.cells := by
    rw [hcells]
    exact List.mem_singleton.mpr rfl
  have hrows : (buildUtilizationMatrixWithProjects [overAllocProject]
      [overAllocPerson] none none none).rows
      = [mkPersonRow [overAllocProject] [overAllocPerson] ["2024-05"]
          overAllocPerson] := by
    simp +decide [buildUtilizationMatrixWithProjects, hms, utilPeople, utilRows,
      shouldShowPerson, isPersonInactiveInMonth, overAllocPerson, strLt,
      charListLt]
  have hrow : (mkPersonRow [overAllocProject] [overAllocPerson] ["2024-05"]
      overAllocPerson) ∈ (buildUtilizationMatrixWithProjects [overAllocProject]
      [overAllocPerson] none none none).rows := by
    rw [hrows]
    exact List.mem_singleton.mpr rfl
  have h := claim_C7 [overAllocProject] [overAllocPerson] none none none _ hrow
    (⟨"2024-05", "May 2024", 240, 3 / 2⟩ : HeatCell) hcell
  exact ⟨hcell, h.2 (by decide) (by decide)⟩

/-! Order lemmas for the JavaScript string comparison. -/

theorem charListLt_asymm : ∀ {a b : List Char},
    charListLt a b = true → ¬ charListLt b a = true := by
  intro a
  induction a with
  | nil =>
    intro b h
    cases b with
    | nil => simp [charListLt] at h
    | cons y ys => simp [charListLt]
  | cons x xs ih =>
    intro b h
    cases b with
    | nil => simp [charListLt] at h
    | cons y ys =>
      simp only [charListLt, Bool.or_eq_true, Bool.and_eq_true, beq_iff_eq,
        decide_eq_true_eq] at h ⊢
      rcases h with h | ⟨rfl, h⟩
      · rintro (h2 | ⟨rfl, h2⟩)
        · exact absurd h2 (lt_asymm h)
        · exact absurd h (lt_irrefl _)
      · rintro (h2 | ⟨-, h2⟩)
        · exact absurd h2 (lt_irrefl _)
        · exact absurd h2 (ih h)

theorem charListLt_trans : ∀ {a b c : List Char},
    charListLt a b = true → charListLt b c = true → charListLt a c = true := by
  intro a
  induction a with
  | nil =>
    intro b c hab hbc
    cases b with
    | nil => simp [charListLt] at hab
    | cons y ys =>
      cases c with
      | nil => simp [charListLt] at hbc
      | cons z zs => simp [charListLt]
  | cons x xs ih =>
    intro b c hab hbc
    cases b with
    | nil => simp [charListLt] at hab
    | cons y ys =>
      cases c with
      | nil => simp [charListLt] at hbc
      | cons z zs =>
        simp only [charListLt, Bool.or_eq_true, Bool.and_eq_true, beq_iff_eq,
          decide_eq_true_eq] at hab hbc ⊢
        rcases hab with hab | ⟨rfl, hab⟩
        · rcases hbc with hbc | ⟨rfl, hbc⟩
          · exact Or.inl (lt_trans hab hbc)
          · exact Or.inl hab
        · rcases hbc with hbc | ⟨rfl, hbc⟩
          · exact Or.inl hbc
          · exact Or.inr ⟨rfl, ih hab hbc⟩

theorem charListLt_connex : ∀ {a b : List Char},
    a ≠ b → charListLt a b = true ∨ charListLt b a = true := by
  intro a
  induction a with
  | nil =>
    intro b h
    cases b with
    | nil => exact absurd rfl h
    | cons y ys => exact Or.inl (by simp [charListLt])
  | cons x xs ih =>
    intro b h
    cases b with
    | nil => exact Or.inr (by simp [charListLt])
    | cons y ys =>
      by_cases hxy : x = y
      · subst hxy
        have hne : xs ≠ ys := by
          intro hh
          exact h (by rw [hh])
        rcases ih hne with hlt | hlt
        · exact Or.inl (by simp [charListLt, hlt])
        · exact Or.inr (by simp [charListLt, hlt])
      · rcases lt_trichotomy x y with hlt | heq | hlt
        · exact Or.inl (by simp [charListLt, hlt])
        · exact absurd heq hxy
        · exact Or.inr (by simp [charListLt, hlt])

theorem string_data_inj {a b : String} (h : a.data = b.data) : a = b := by
  cases a
  cases b
  exact congrArg String.mk h

theorem strLt_asymm {a b : String} (h : strLt a b = true) :
    ¬ strLt b a = true :=
  charListLt_asymm h

theorem strLt_trans {a b c : String} (hab : strLt a b = true)
    (hbc : strLt b c = true) : strLt a c = true :=
  charListLt_trans hab hbc

theorem strLt_connex {a b : String} (h : a ≠ b) :
    strLt a b = true ∨ strLt b a = true := by
  apply charListLt_connex
  intro hd
  exact h (string_data_inj hd)

/-! Sorting lemmas for the rollup buckets. -/

theorem sortedInsertRow_perm (b : RollRow) :
    ∀ l, (sortedInsertRow b l).Perm (b :: l) := by
  intro l
  induction l with
  | nil => rfl
  | cons x xs ih =>
    rw [sortedInsertRow]
    by_cases h : strLt b.ym x.ym = true
    · simp [h]
    · simp only [h, if_false, Bool.false_eq_true]
      exact (List.Perm.cons x ih).trans (List.Perm.swap b x xs)

theorem sortRollRows_perm (l : List RollRow) : (sortRollRows l).Perm l := by
  induction l with
  | nil => rfl
  | cons x xs ih =>
    exact (sortedInsertRow_perm x (sortRollRows xs)).trans (List.Perm.cons x ih)

theorem pairwise_le_sortedInsertRow {b : RollRow} {l : List RollRow}
    (h : l.Pairwise fun u v => ¬ strLt v.ym u.ym = true) :
    (sortedInsertRow b l).Pairwise fun u v => ¬ strLt v.ym u.ym = true := by
  induction l with
  | nil => simp [sortedInsertRow]
  | cons x xs ih =>
    rcases List.pairwise_cons.mp h with ⟨hx, hxs⟩
    rw [sortedInsertRow]
    by_cases hbx : strLt b.ym x.ym = true
    · simp only [hbx, if_true]
      refine List.pairwise_cons.mpr ⟨?_, h⟩
      intro y hy
      rcases List.mem_cons.mp hy with rfl | hy
      · exact strLt_asymm hbx
      · intro hyb
        exact hx y hy (strLt_trans hyb hbx)
    · simp only [hbx, if_false, Bool.false_eq_true]
      refine List.pairwise_cons.mpr ⟨?_, ih hxs⟩
      intro y hy
      have hy2 : y ∈ b :: xs := (sortedInsertRow_perm b xs).mem_iff.mp hy
      rcases List.mem_cons.mp hy2 with rfl | hy2
      · exact hbx
      · exact hx y hy2

theorem sortRollRows_pairwise_le (l : List RollRow) :
    (sortRollRows l).Pairwise fun u v => ¬ strLt v.ym u.ym = true := by
  induction l with
  | nil => exact List.Pairwise.nil
  | cons x xs ih => exact pairwise_le_sortedInsertRow ih

theorem sortRollRows_pairwise_lt (l : List RollRow)
    (h : (l.map RollRow.ym).Nodup) :
    (sortRollRows l).Pairwise fun u v => strLt u.ym v.ym = true := by
  have hperm := sortRollRows_perm l
  have hnd : ((sortRollRows l).map RollRow.ym).Nodup :=
    ((hperm.map RollRow.ym).nodup_iff).mpr h
  have hne : (sortRollRows l).Pairwise fun u v => u.ym ≠ v.ym :=
    List.pairwise_map.mp hnd
  have hle := sortRollRows_pairwise_le l
  exact (hle.and hne).imp fun {u v} hp =>
    (strLt_connex hp.2).resolve_right hp.1

/-! Association-list lemmas for the bucket map. -/

theorem lookup_updateRows_eq (rows : List (String × RollRow)) (ym : String)
    (f : RollRow → RollRow) :
    (updateRows rows ym f).lookup ym
      = some (f ((rows.lookup ym).getD (freshRollRow ym))) := by
  induction rows with
  | nil => simp [updateRows, List.lookup]
  | cons kv rest ih =>
    obtain ⟨k, r⟩ := kv
    rw [updateRows]
    by_cases hk : k = ym
    · subst hk
      simp [List.lookup]
    · have hne : (ym == k) = false := by
        simp [beq_iff_eq]
        exact fun hh => hk hh.symm
      simp [hk, List.lookup, hne, ih]

theorem lookup_updateRows_ne {y ym : String} (h : y ≠ ym)
    (rows : List (String × RollRow)) (f : RollRow → RollRow) :
    (updateRows rows ym f).lookup y = rows.lookup y := by
  induction rows with
  | nil =>
    have hne : (y == ym) = false := by simpa [beq_iff_eq] using h
    simp [updateRows, List.lookup, hne]
  | cons kv rest ih =>
    obtain ⟨k, r⟩ := kv
    rw [updateRows]
    by_cases hk : k = ym
    · subst hk
      have hne : (y == k) = false := by simpa [beq_iff_eq] using h
      simp [List.lookup, hne]
    · simp [hk, List.lookup, ih]

theorem mem_keys_updateRows {y : String} (rows : List (String × RollRow))
    (ym : String) (f : RollRow → RollRow) :
    y ∈ (updateRows rows ym f).map Prod.fst ↔
      y ∈ rows.map Prod.fst ∨ y = ym := by
  induction rows with
  | nil => simp [updateRows]
  | cons kv rest ih =>
    obtain ⟨k, r⟩ := kv
    rw [updateRows]
    by_cases hk : k = ym
    · subst hk
      simp only [if_pos rfl]
      constructor
      · intro hy
        rcases List.mem_cons.mp hy with hy | hy
        · exact Or.inl (by simp [hy])
        · simp at hy ⊢
          tauto
      · intro hy
        simp at hy ⊢
        tauto
    · simp only [hk, if_false]
      simp only [List.map_cons, List.mem_cons, ih]
      tauto

theorem nodup_keys_updateRows (rows : List (String × RollRow)) (ym : String)
    (f : RollRow → RollRow) (h : (rows.map Prod.fst).Nodup) :
    ((updateRows rows ym f).map Prod.fst).Nodup := by
  induction rows with
  | nil => simp [updateRows]
  | cons kv rest ih =>
    obtain ⟨k, r⟩ := kv
    simp only [List.map_cons, List.nodup_cons] at h
    rw [updateRows]
    by_cases hk : k = ym
    · subst hk
      simp only [if_pos rfl, eq_self_iff_true, if_true, List.map_cons,
        List.nodup_cons]
      exact ⟨h.1, h.2⟩
    · simp only [hk, if_false, List.map_cons, List.nodup_cons]
      refine ⟨?_, ih h.2⟩
      intro hmem
      rcases (mem_keys_updateRows rest ym f).mp hmem with hmem | hmem
      · exact h.1 hmem
      · exact hk hmem

theorem ymfield_updateRows (rows : List (String × RollRow)) (ym : String)
    (f : RollRow → RollRow) (hrows : ∀ kv ∈ rows, (kv.2 : RollRow).ym = kv.1)
    (hf : ∀ r, (f r).ym = r.ym) :
    ∀ kv ∈ updateRows rows ym f, (kv.2 : RollRow).ym = kv.1 := by
  induction rows with
  | nil =>
    intro kv hkv
    simp only [updateRows, List.mem_singleton] at hkv
    subst hkv
    simpa [freshRollRow] using hf (freshRollRow ym)
  | cons hd rest ih =>
    obtain ⟨k, r⟩ := hd
    intro kv hkv
    rw [updateRows] at hkv
    by_cases hk : k = ym
    · subst hk
      rcases List.mem_cons.mp (by simpa using hkv) with rfl | hkv
      · simpa using (hf r).trans (hrows (k, r) (by simp))
      · exact hrows kv (List.mem_cons_of_mem _ hkv)
    · simp only [hk, if_false] at hkv
      rcases List.mem_cons.mp hkv with rfl | hkv
      · exact hrows (k, r) (by simp)
      · exact ih (fun p hp => hrows p (List.mem_cons_of_mem _ hp)) kv hkv

/-! Unfolding lemmas for the rollup fold. -/

theorem rollupStep_false {roster : List RosterPerson} {s e : Option String}
    {rows : List (String × RollRow)} {it : Project × ℕ × MonthRow}
    (hin : inYmRange (itemYm it) s e = false) :
    rollupStep roster s e rows it = rows := by
  rw [rollupStep]
  have h2 : inYmRange (ymFromStartIndex it.1.startMonthISO it.2.1) s e = false := hin
  simp [h2]

theorem rollupStep_true {roster : List RosterPerson} {s e : Option String}
    {rows : List (String × RollRow)} {it : Project × ℕ × MonthRow}
    (hin : inYmRange (itemYm it) s e = true) :
    rollupStep roster s e rows it
      = updateRows rows (itemYm it) (rollupAdd roster it.1 it.2.2) := by
  rw [rollupStep]
  have h2 : inYmRange (ymFromStartIndex it.1.startMonthISO it.2.1) s e = true := hin
  simp only [h2, if_true]
  rfl

theorem rollupAdd_ym (roster : List RosterPerson) (p : Project) (m : MonthRow)
    (r : RollRow) : (rollupAdd roster p m r).ym = r.ym := rfl

theorem rollupAdd_hours (roster : List RosterPerson) (p : Project) (m : MonthRow)
    (r : RollRow) :
    (rollupAdd roster p m r).hours = r.hours + (monthHL roster p m).1 := rfl

theorem rollupAdd_labor (roster : List RosterPerson) (p : Project) (m : MonthRow)
    (r : RollRow) :
    (rollupAdd roster p m r).labor = r.labor + (monthHL roster p m).2 := rfl

theorem rollupAdd_overhead (roster : List RosterPerson) (p : Project) (m : MonthRow)
    (r : RollRow) :
    (rollupAdd roster p m r).overhead
      = jsAdd r.overhead (jsMul (some (monthHL roster p m).1) p.overheadPerHour) := rfl

theorem rollupAdd_expenses (roster : List RosterPerson) (p : Project) (m : MonthRow)
    (r : RollRow) :
    (rollupAdd roster p m r).expenses = jsAdd r.expenses m.expenses := rfl

theorem rollupAdd_revenue (roster : List RosterPerson) (p : Project) (m : MonthRow)
    (r : RollRow) :
    (rollupAdd roster p m r).revenue = jsAdd r.revenue m.revenue := rfl

theorem keys_foldl_rollup_mem (roster : List RosterPerson) (s e : Option String) :
    ∀ (items : List (Project × ℕ × MonthRow)) (rows : List (String × RollRow))
      (y : String),
    y ∈ (items.foldl (rollupStep roster s e) rows).map Prod.fst ↔
      (y ∈ rows.map Prod.fst ∨
        y ∈ (items.filter (fun it => inYmRange (itemYm it) s e)).map itemYm) := by
  intro items
  induction items with
  | nil =>
    intro rows y
    simp
  | cons it rest ih =>
    intro rows y
    rw [List.foldl_cons]
    cases hin : inYmRange (itemYm it) s e with
    | false =>
      rw [rollupStep_false hin, ih]
      simp [List.filter_cons, hin]
    | true =>
      rw [rollupStep_true hin, ih]
      rw [List.filter_cons]
      simp only [hin, if_true, List.map_cons, List.mem_cons,
        mem_keys_updateRows]
      tauto

theorem keys_foldl_rollup_nodup (roster : List RosterPerson) (s e : Option String) :
    ∀ (items : List (Project × ℕ × MonthRow)) (rows : List (String × RollRow)),
    (rows.map Prod.fst).Nodup →
      ((items.foldl (rollupStep roster s e) rows).map Prod.fst).Nodup := by
  intro items
  induction items with
  | nil =>
    intro rows h
    simpa using h
  | cons it rest ih =>
    intro rows h
    rw [List.foldl_cons]
    cases hin : inYmRange (itemYm it) s e with
    | false =>
      rw [rollupStep_false hin]
      exact ih rows h
    | true =>
      rw [rollupStep_true hin]
      exact ih _ (nodup_keys_updateRows rows _ _ h)

theorem ymfield_foldl_rollup (roster : List RosterPerson) (s e : Option String) :
    ∀ (items : List (Project × ℕ × MonthRow)) (rows : List (String × RollRow)),
    (∀ kv ∈ rows, (kv.2 : RollRow).ym = kv.1) →
      ∀ kv ∈ items.foldl (rollupStep roster s e) rows,
        (kv.2 : RollRow).ym = kv.1 := by
  intro items
  induction items with
  | nil =>
    intro rows h
    simpa using h
  | cons it rest ih =>
    intro rows h
    rw [List.foldl_cons]
    cases hin : inYmRange (itemYm it) s e with
    | false =>
      rw [rollupStep_false hin]
      exact ih rows h
    | true =>
      rw [rollupStep_true hin]
      exact ih _ (ymfield_updateRows rows _ _ h (fun r => rollupAdd_ym roster it.1 it.2.2 r))

theorem assoc_mem_lookup {l : List (String × RollRow)} {k : String} {v : RollRow}
    (hmem : (k, v) ∈ l) (hnd : (l.map Prod.fst).Nodup) :
    l.lookup k = some v := by
  induction l with
  | nil => simp at hmem
  | cons kv rest ih =>
    obtain ⟨k2, v2⟩ := kv
    simp only [List.map_cons, List.nodup_cons] at hnd
    rcases List.mem_cons.mp hmem with heq | hmem2
    · obtain ⟨rfl, rfl⟩ := Prod.mk.injEq .. ▸ And.intro (congrArg Prod.fst heq) (congrArg Prod.snd heq)
      simp [List.lookup]
    · have hne : (k == k2) = false := by
        simp only [beq_eq_false_iff_ne, ne_eq]
        intro hk
        subst hk
        exact hnd.1 (by simpa using List.mem_map_of_mem Prod.fst hmem2)
      simp [List.lookup, hne]
      exact ih hmem2 hnd.2

theorem lookup_foldl_rollup (roster : List RosterPerson) (s e : Option String) :
    ∀ (items : List (Project × ℕ × MonthRow)) (rows : List (String × RollRow))
      (y : String),
    (items.foldl (rollupStep roster s e) rows).lookup y =
      (match rows.lookup y,
          items.filter (fun it => inYmRange (itemYm it) s e && itemYm it == y) with
        | some r, cs => some (applyContribs roster r cs)
        | none, [] => none
        | none, cs => some (applyContribs roster (freshRollRow y) cs)) := by
  intro items
  induction items with
  | nil =>
    intro rows y
    simp only [List.foldl_nil, List.filter_nil]
    cases h : rows.lookup y with
    | some r => simp [applyContribs]
    | none => simp
  | cons it rest ih =>
    intro rows y
    rw [List.foldl_cons]
    cases hin : inYmRange (itemYm it) s e with
    | false =>
      rw [rollupStep_false hin, ih, List.filter_cons]
      simp [hin]
    | true =>
      rw [rollupStep_true hin]
      by_cases hy : itemYm it = y
      · subst hy
        rw [ih, List.filter_cons]
        have hcond : (inYmRange (itemYm it) s e && itemYm it == itemYm it) = true := by
          simp [hin]
        rw [hcond]
        simp only [if_true]
        cases hl : rows.lookup (itemYm it) with
        | some r =>
          rw [lookup_updateRows_eq, hl]
          simp only [Option.getD_some]
          have happ : applyContribs roster r
              (it :: rest.filter
                (fun x => inYmRange (itemYm x) s e && itemYm x == itemYm it))
              = applyContribs roster (rollupAdd roster it.1 it.2.2 r)
                (rest.filter
                  (fun x => inYmRange (itemYm x) s e && itemYm x == itemYm it)) := rfl
          simp [happ]
        | none =>
          rw [lookup_updateRows_eq, hl]
          simp only [Option.getD_none]
          have happ : applyContribs roster (freshRollRow (itemYm it))
              (it :: rest.filter
                (fun x => inYmRange (itemYm x) s e && itemYm x == itemYm it))
              = applyContribs roster
                (rollupAdd roster it.1 it.2.2 (freshRollRow (itemYm it)))
                (rest.filter
                  (fun x => inYmRange (itemYm x) s e && itemYm x == itemYm it)) := rfl
          simp [happ]
      · have hcond : (inYmRange (itemYm it) s e && itemYm it == y) = false := by
          simp [hy]
        rw [ih, List.filter_cons, hcond]
        simp only [Bool.false_eq_true, if_false]
        rw [lookup_updateRows_ne (fun hh => hy hh.symm)]

theorem applyContribs_ym (roster : List RosterPerson) :
    ∀ (cs : List (Project × ℕ × MonthRow)) (r : RollRow),
    (applyContribs roster r cs).ym = r.ym := by
  intro cs
  induction cs with
  | nil => intro r; rfl
  | cons it cs ih =>
    intro r
    exact (ih (rollupAdd roster it.1 it.2.2 r)).trans (rollupAdd_ym roster it.1 it.2.2 r)

theorem applyContribs_hours (roster : List RosterPerson) :
    ∀ (cs : List (Project × ℕ × MonthRow)) (r : RollRow),
    (applyContribs roster r cs).hours
      = r.hours + (cs.map (fun it => (monthHL roster it.1 it.2.2).1)).sum := by
  intro cs
  induction cs with
  | nil => intro r; simp [applyContribs]
  | cons it cs ih =>
    intro r
    have h0 : applyContribs roster r (it :: cs)
        = applyContribs roster (rollupAdd roster it.1 it.2.2 r) cs := rfl
    rw [h0, ih, rollupAdd_hours]
    simp [add_assoc]

theorem applyContribs_labor (roster : List RosterPerson) :
    ∀ (cs : List (Project × ℕ × MonthRow)) (r : RollRow),
    (applyContribs roster r cs).labor
      = r.labor + (cs.map (fun it => (monthHL roster it.1 it.2.2).2)).sum := by
  intro cs
  induction cs with
  | nil => intro r; simp [applyContribs]
  | cons it cs ih =>
    intro r
    have h0 : applyContribs roster r (it :: cs)
        = applyContribs roster (rollupAdd roster it.1 it.2.2 r) cs := rfl
    rw [h0, ih, rollupAdd_labor]
    simp [add_assoc]

theorem applyContribs_overhead (roster : List RosterPerson) :
    ∀ (cs : List (Project × ℕ × MonthRow)) (r : RollRow),
    (applyContribs roster r cs).overhead
      = (cs.map (fun it =>
          jsMul (some (monthHL roster it.1 it.2.2).1) it.1.overheadPerHour)).foldl
            jsAdd r.overhead := by
  intro cs
  induction cs with
  | nil => intro r; simp [applyContribs]
  | cons it cs ih =>
    intro r
    have h0 : applyContribs roster r (it :: cs)
        = applyContribs roster (rollupAdd roster it.1 it.2.2 r) cs := rfl
    rw [h0, ih, rollupAdd_overhead]
    simp

theorem applyContribs_expenses (roster : List RosterPerson) :
    ∀ (cs : List (Project × ℕ × MonthRow)) (r : RollRow),
    (applyContribs roster r cs).expenses
      = (cs.map (fun it => it.2.2.expenses)).foldl jsAdd r.expenses := by
  intro cs
  induction cs with
  | nil => intro r; simp [applyContribs]
  | cons it cs ih =>
    intro r
    have h0 : applyContribs roster r (it :: cs)
        = applyContribs roster (rollupAdd roster it.1 it.2.2 r) cs := rfl
    rw [h0, ih, rollupAdd_expenses]
    simp

theorem applyContribs_revenue (roster : List RosterPerson) :
    ∀ (cs : List (Project × ℕ × MonthRow)) (r : RollRow),
    (applyContribs roster r cs).revenue
      = (cs.map (fun it => it.2.2.revenue)).foldl jsAdd r.revenue := by
  intro cs
  induction cs with
  | nil => intro r; simp [applyContribs]
  | cons it cs ih =>
    intro r
    have h0 : applyContribs roster r (it :: cs)
        = applyContribs roster (rollupAdd roster it.1 it.2.2 r) cs := rfl
    rw [h0, ih, rollupAdd_revenue]
    simp

/-! Sum computations for the two allocation loops. -/

theorem foldl_jsAdd_some (l : List ℚ) :
    ∀ a : ℚ, (l.map some).foldl jsAdd (some a) = some (a + l.sum) := by
  induction l with
  | nil => intro a; simp
  | cons x xs ih =>
    intro a
    simp only [List.map_cons, List.foldl_cons, jsAdd, List.sum_cons]
    rw [ih]
    ring_nf

theorem sum_map_addQ {α : Type} (f g : α → ℚ) :
    ∀ l : List α, (l.map fun x => f x + g x).sum = (l.map f).sum + (l.map g).sum := by
  intro l
  induction l with
  | nil => simp
  | cons x xs ih =>
    simp only [List.map_cons, List.sum_cons, ih]
    ring

theorem cms_fold_eq (people : List RosterPerson) :
    ∀ (l : List (String × JsVal)) (a b : ℚ),
    (l.foldl
      (fun (acc : ℚ × ℚ) e =>
        match people.find? (fun x => x.id == e.1) with
        | none => acc
        | some p =>
          let h := toNumber p.baseMonthlyHours 0 * toNumber e.2 0 / 100
          (acc.1 + h, acc.2 + effectiveHourlyRate p * h)) (a, b))
    = (a + (l.map (allocTermW (fun q => toNumber q.baseMonthlyHours 0) people)).sum,
       b + (l.map (allocTermW
          (fun q => toNumber q.baseMonthlyHours 0 * effectiveHourlyRate q)
          people)).sum) := by
  intro l
  induction l with
  | nil => intro a b; simp
  | cons e l ih =>
    intro a b
    rw [List.foldl_cons]
    cases hf : people.find? (fun x => x.id == e.1) with
    | none =>
      simp only [hf]
      rw [ih]
      simp [allocTermW, hf]
    | some p =>
      simp only [hf]
      rw [ih]
      simp only [allocTermW, hf, List.map_cons, List.sum_cons]
      rw [Prod.mk.injEq]
      constructor <;> ring

theorem computeMonthStats_hours (people : List RosterPerson) (m : MonthRow)
    (oph : JsVal) :
    (computeMonthStats people m oph).hours
      = (m.personAllocations.map
          (allocTermW (fun q => toNumber q.baseMonthlyHours 0) people)).sum := by
  simp only [computeMonthStats]
  rw [cms_fold_eq]
  simp

theorem computeMonthStats_labor (people : List RosterPerson) (m : MonthRow)
    (oph : JsVal) :
    (computeMonthStats people m oph).labor
      = (m.personAllocations.map
          (allocTermW
            (fun q => toNumber q.baseMonthlyHours 0 * effectiveHourlyRate q)
            people)).sum := by
  simp only [computeMonthStats]
  rw [cms_fold_eq]
  simp

theorem computeMonthStats_overhead (people : List RosterPerson) (m : MonthRow)
    (oph : JsVal) :
    (computeMonthStats people m oph).overhead
      = jsMul oph (some (computeMonthStats people m oph).hours) := rfl

theorem computeMonthStats_expenses (people : List RosterPerson) (m : MonthRow)
    (oph : JsVal) :
    (computeMonthStats people m oph).expenses = toNumber m.expenses 0 := rfl

theorem computeMonthStats_revenue (people : List RosterPerson) (m : MonthRow)
    (oph : JsVal) :
    (computeMonthStats people m oph).revenue = toNumber m.revenue 0 := rfl

theorem monthHL_fold_eq (allocs : List (String × JsVal)) :
    ∀ (l : List RosterPerson) (a b : ℚ),
    (l.foldl
      (fun (acc : ℚ × ℚ) person =>
        let alloc := toNumber ((allocs.lookup person.id).getD (some 0)) 0
        if alloc ≤ 0 then acc
        else
          let base := toNumber person.baseMonthlyHours 0
          let hours := base * alloc / 100
          (acc.1 + hours, acc.2 + hours * effectiveHourlyRate person)) (a, b))
    = (a + (l.map (memberTermW (fun q => toNumber q.baseMonthlyHours 0) allocs)).sum,
       b + (l.map (memberTermW
          (fun q => toNumber q.baseMonthlyHours 0 * effectiveHourlyRate q)
          allocs)).sum) := by
  intro l
  induction l with
  | nil => intro a b; simp
  | cons person l ih =>
    intro a b
    rw [List.foldl_cons]
    by_cases ha : toNumber ((allocs.lookup person.id).getD (some 0)) 0 ≤ 0
    · simp only [ha, if_true]
      rw [ih]
      simp [memberTermW, ha]
    · simp only [ha, if_false]
      rw [ih]
      simp only [memberTermW, ha, if_false, List.map_cons, List.sum_cons]
      rw [Prod.mk.injEq]
      constructor <;> ring

theorem monthHL_eq (roster : List RosterPerson) (p : Project) (m : MonthRow) :
    monthHL roster p m
      = (((projectMembers p roster).map
            (memberTermW (fun q => toNumber q.baseMonthlyHours 0)
              m.personAllocations)).sum,
         ((projectMembers p roster).map
            (memberTermW
              (fun q => toNumber q.baseMonthlyHours 0 * effectiveHourlyRate q)
              m.personAllocations)).sum) := by
  rw [monthHL, monthHL_fold_eq]
  simp

theorem sum_single_key (w : ℚ) (pid : String) :
    ∀ (allocs : List (String × JsVal)),
      (allocs.map Prod.fst).Nodup →
      (∀ e ∈ allocs, 0 ≤ toNumber e.2 0) →
      (allocs.map (fun e => if e.1 = pid then w * toNumber e.2 0 / 100 else 0)).sum
        = (if toNumber ((allocs.lookup pid).getD (some 0)) 0 ≤ 0 then 0
           else w * toNumber ((allocs.lookup pid).getD (some 0)) 0 / 100) := by
  intro allocs
  induction allocs with
  | nil =>
    intro _ _
    simp [List.lookup, toNumber]
  | cons e rest ih =>
    intro hnd hv
    obtain ⟨k, v⟩ := e
    simp only [List.map_cons, List.nodup_cons] at hnd
    by_cases hk : k = pid
    · subst hk
      have hbeq : (k == k) = true := by simp
      have hrest : (rest.map
          (fun e => if e.1 = k then w * toNumber e.2 0 / 100 else 0)).sum = 0 := by
        apply List.sum_eq_zero
        intro x hx
        obtain ⟨e2, he2, rfl⟩ := List.mem_map.mp hx
        have : e2.1 ≠ k := by
          intro hh
          exact hnd.1 (hh ▸ List.mem_map_of_mem Prod.fst he2)
        simp [this]
      simp only [List.map_cons, List.sum_cons, if_pos rfl, hrest, add_zero,
        List.lookup, hbeq, Option.getD_some]
      have hv0 : 0 ≤ toNumber v 0 := hv (k, v) (by simp)
      by_cases hz : toNumber v 0 ≤ 0
      · have : toNumber v 0 = 0 := le_antisymm hz hv0
        simp [this, hz]
      · simp [hz]
    · have hbeq : (pid == k) = false := by
        simp only [beq_eq_false_iff_ne, ne_eq]
        exact fun hh => hk hh.symm
      simp only [List.map_cons, List.sum_cons, hk, if_false, zero_add,
        List.lookup, hbeq]
      exact ih hnd.2 (fun x hx => hv x (List.mem_cons_of_mem _ hx))

theorem sum_alloc_reindex (w : RosterPerson → ℚ) :
    ∀ (members : List RosterPerson) (allocs : List (String × JsVal)),
      ((members.map RosterPerson.id).Nodup) →
      ((allocs.map Prod.fst).Nodup) →
      (∀ e ∈ allocs, 0 ≤ toNumber e.2 0) →
      (allocs.map (allocTermW w members)).sum
        = (members.map (memberTermW w allocs)).sum := by
  intro members
  induction members with
  | nil =>
    intro allocs _ _ _
    simp only [List.map_nil, List.sum_nil]
    apply List.sum_eq_zero
    intro x hx
    obtain ⟨e, he, rfl⟩ := List.mem_map.mp hx
    simp [allocTermW]
  | cons p rest ih =>
    intro allocs hm ha hv
    simp only [List.map_cons, List.nodup_cons] at hm
    have hpoint : ∀ e ∈ allocs,
        allocTermW w (p :: rest) e
          = (if e.1 = p.id then w p * toNumber e.2 0 / 100 else 0)
            + allocTermW w rest e := by
      intro e he
      by_cases hid : p.id = e.1
      · have hfind : (p :: rest).find? (fun x => x.id == e.1) = some p := by
          simp [List.find?_cons, hid]
        have hrest : rest.find? (fun x => x.id == e.1) = none := by
          rw [List.find?_eq_none]
          intro x hx
          simp only [beq_iff_eq]
          intro hxe
          apply hm.1
          have hxp : x.id = p.id := hxe.trans hid.symm
          rw [← hxp]
          exact List.mem_map_of_mem RosterPerson.id hx
        simp only [allocTermW, hfind, hrest]
        simp [hid.symm]
      · have hfind : (p :: rest).find? (fun x => x.id == e.1)
            = rest.find? (fun x => x.id == e.1) := by
          simp [List.find?_cons, hid]
        have hne : e.1 ≠ p.id := fun hh => hid hh.symm
        simp [allocTermW, hfind, hne]
    have hsplit : (allocs.map (allocTermW w (p :: rest))).sum
        = (allocs.map
            (fun e => if e.1 = p.id then w p * toNumber e.2 0 / 100 else 0)).sum
          + (allocs.map (allocTermW w rest)).sum := by
      rw [← sum_map_addQ]
      apply congrArg
      exact List.map_congr_left hpoint
    rw [hsplit, sum_single_key (w p) p.id allocs ha hv, ih allocs hm.2 ha hv]
    simp [memberTermW]

theorem monthHL_cms (roster : List RosterPerson) (p : Project) (m : MonthRow)
    (oph : JsVal) (hroster : (roster.map RosterPerson.id).Nodup)
    (hkeys : (m.personAllocations.map Prod.fst).Nodup)
    (hvals : ∀ e ∈ m.personAllocations, 0 ≤ toNumber e.2 0) :
    monthHL roster p m
      = ((computeMonthStats (projectMembers p roster) m oph).hours,
         (computeMonthStats (projectMembers p roster) m oph).labor) := by
  have hmem : ((projectMembers p roster).map RosterPerson.id).Nodup := by
    apply List.Nodup.sublist ?_ hroster
    exact List.Sublist.map RosterPerson.id (List.filter_sublist roster)
  rw [monthHL_eq, computeMonthStats_hours, computeMonthStats_labor]
  rw [Prod.mk.injEq]
  constructor
  · exact (sum_alloc_reindex _ (projectMembers p roster) m.personAllocations
      hmem hkeys hvals).symm
  · exact (sum_alloc_reindex _ (projectMembers p roster) m.personAllocations
      hmem hkeys hvals).symm

theorem inYmRange_iff (ym : String) (s e : Option String) :
    inYmRange ym s e = true ↔ inRangeSpec ym s e := by
  unfold inYmRange inRangeSpec
  cases s with
  | none =>
    cases e with
    | none => simp
    | some se =>
      simp only [Bool.not_false, Bool.true_and, Bool.not_eq_true',
        Bool.and_eq_false_iff, decide_eq_false_iff_not, not_not]
      constructor
      · rintro (h | h)
        · exact ⟨fun str hh => absurd hh (by simp), fun str hh => by
            injection hh with hh2
            subst hh2
            intro hne
            exact absurd h hne⟩
        · exact ⟨fun str hh => absurd hh (by simp), fun str hh => by
            injection hh with hh2
            subst hh2
            intro _
            exact h⟩
      · rintro ⟨-, h2⟩
        by_cases hse : se = ""
        · exact Or.inl hse
        · exact Or.inr (h2 se rfl hse)
  | some ss =>
    cases e with
    | none =>
      simp only [Bool.not_false, Bool.and_true, Bool.not_eq_true',
        Bool.and_eq_false_iff, decide_eq_false_iff_not, not_not]
      constructor
      · rintro (h | h)
        · exact ⟨fun str hh => by
            injection hh with hh2
            subst hh2
            intro hne
            exact absurd h hne, fun str hh => absurd hh (by simp)⟩
        · exact ⟨fun str hh => by
            injection hh with hh2
            subst hh2
            intro _
            exact h, fun str hh => absurd hh (by simp)⟩
      · rintro ⟨h1, -⟩
        by_cases hss : ss = ""
        · exact Or.inl hss
        · exact Or.inr (h1 ss rfl hss)
    | some se =>
      simp only [Bool.and_eq_true, Bool.not_eq_true', Bool.and_eq_false_iff,
        decide_eq_false_iff_not, not_not]
      constructor
      · rintro ⟨h1, h2⟩
        refine ⟨fun str hh => ?_, fun str hh => ?_⟩
        · injection hh with hh2
          subst hh2
          intro hne
          rcases h1 with h1 | h1
          · exact absurd h1 hne
          · exact h1
        · injection hh with hh2
          subst hh2
          intro hne
          rcases h2 with h2 | h2
          · exact absurd h2 hne
          · exact h2
      · rintro ⟨h1, h2⟩
        constructor
        · by_cases hss : ss = ""
          · exact Or.inl hss
          · exact Or.inr (h1 ss rfl hss)
        · by_cases hse : se = ""
          · exact Or.inl hse
          · exact Or.inr (h2 se rfl hse)

/-- Claim C5: `buildCalendarRollupFiltered` yields exactly one bucket per
distinct calendar month reached by advancing some project's start month by
a month index (with year carry), restricted to the filter range, sorted
strictly ascending by `ym`; concretely, a project starting 2024-11 with 3
months yields ym values 2024-11, 2024-12, 2025-01 in that order, and a
project with zero months yields no buckets. -/
theorem claim_C5 :
    (∀ (projects : List Project) (roster : List RosterPerson)
        (s e : Option String),
        (buildCalendarRollupFiltered projects roster s e).Pairwise
          (fun u v => strLt u.ym v.ym = true)
        ∧ (∀ y : String,
            y ∈ (buildCalendarRollupFiltered projects roster s e).map RollRow.ym ↔
              ∃ p ∈ projects, ∃ im ∈ p.months.enum,
                ymFromStartIndex p.startMonthISO im.1 = y ∧ inRangeSpec y s e))
    ∧ (buildCalendarRollupFiltered [carryProject] [] none none).map RollRow.ym
        = ["2024-11", "2024-12", "2025-01"]
    ∧ buildCalendarRollupFiltered [emptyProject] [] none none = [] := by
  refine ⟨?_, by decide, by decide⟩
  intro projects roster s e
  have hymfield : ∀ kv ∈ (rollupItems projects).foldl (rollupStep roster s e) [],
      (kv.2 : RollRow).ym = kv.1 :=
    ymfield_foldl_rollup roster s e (rollupItems projects) [] (by simp)
  have hkeysnd : (((rollupItems projects).foldl (rollupStep roster s e) []).map
      Prod.fst).Nodup :=
    keys_foldl_rollup_nodup roster s e (rollupItems projects) [] (by simp)
  have hmapym : (((rollupItems projects).foldl (rollupStep roster s e) []).map
        (fun kv => kv.2)).map RollRow.ym
      = ((rollupItems projects).foldl (rollupStep roster s e) []).map Prod.fst := by
    rw [List.map_map]
    apply List.map_congr_left
    intro kv hkv
    exact hymfield kv hkv
  constructor
  · rw [buildCalendarRollupFiltered]
    apply sortRollRows_pairwise_lt
    rw [hmapym]
    exact hkeysnd
  · intro y
    rw [buildCalendarRollupFiltered]
    rw [((sortRollRows_perm _).map RollRow.ym).mem_iff, hmapym,
      keys_foldl_rollup_mem roster s e (rollupItems projects) [] y]
    simp only [List.map_nil, List.not_mem_nil, false_or]
    rw [List.mem_map]
    constructor
    · rintro ⟨it, hit, rfl⟩
      rcases List.mem_filter.mp hit with ⟨hit2, hrange⟩
      simp only [rollupItems, List.mem_flatMap, List.mem_map] at hit2
      obtain ⟨p, hp, im, him, rfl⟩ := hit2
      exact ⟨p, hp, im, him, rfl, (inYmRange_iff _ s e).mp hrange⟩
    · rintro ⟨p, hp, im, him, rfl, hspec⟩
      refine ⟨(p, im.1, im.2), ?_, rfl⟩
      apply List.mem_filter.mpr
      refine ⟨?_, (inYmRange_iff _ s e).mpr hspec⟩
      simp only [rollupItems, List.mem_flatMap, List.mem_map]
      exact ⟨p, hp, im, him, rfl⟩

theorem snd_mem_of_mem_enumFrom {α : Type} :
    ∀ (l : List α) (n : ℕ) (x : ℕ × α), x ∈ List.enumFrom n l → x.2 ∈ l := by
  intro l
  induction l with
  | nil =>
    intro n x hx
    simp [List.enumFrom] at hx
  | cons a t ih =>
    intro n x hx
    rw [List.enumFrom] at hx
    rcases List.mem_cons.mp hx with rfl | hx
    · simp
    · exact List.mem_cons_of_mem _ (ih (n + 1) x hx)

/-- Claim C6 (amended): provided roster ids are distinct and every
project-month is well-formed (allocation keys distinct, coerced allocation
values nonnegative, numeric expenses and revenue), every bucket of
`buildCalendarRollupFiltered` with no ym filters has hours, labor,
overhead, expenses and revenue equal to the field-wise sum of
`computeMonthStats` over the memberIds-filtered roster, taken over all
project-months mapping to that bucket's calendar month.  Without those
invariants the two computations can drift (see the counterexample). -/
theorem claim_C6 (projects : List Project) (roster : List RosterPerson)
    (hroster : (roster.map RosterPerson.id).Nodup)
    (hmonths : ∀ p ∈ projects, ∀ m ∈ p.months,
      (m.personAllocations.map Prod.fst).Nodup ∧
      (∀ e2 ∈ m.personAllocations, 0 ≤ toNumber e2.2 0) ∧
      m.expenses.isSome = true ∧ m.revenue.isSome = true)
    (b : RollRow) (hb : b ∈ buildCalendarRollupFiltered projects roster none none) :
    b.hours = ((bucketItems projects b.ym).map (fun it =>
        (computeMonthStats (projectMembers it.1 roster) it.2.2
          it.1.overheadPerHour).hours)).sum
    ∧ b.labor = ((bucketItems projects b.ym).map (fun it =>
        (computeMonthStats (projectMembers it.1 roster) it.2.2
          it.1.overheadPerHour).labor)).sum
    ∧ b.overhead = jsSum ((bucketItems projects b.ym).map (fun it =>
        (computeMonthStats (projectMembers it.1 roster) it.2.2
          it.1.overheadPerHour).overhead))
    ∧ b.expenses = some (((bucketItems projects b.ym).map (fun it =>
        (computeMonthStats (projectMembers it.1 roster) it.2.2
          it.1.overheadPerHour).expenses)).sum)
    ∧ b.revenue = some (((bucketItems projects b.ym).map (fun it =>
        (computeMonthStats (projectMembers it.1 roster) it.2.2
          it.1.overheadPerHour).revenue)).sum) := by
  rw [buildCalendarRollupFiltered] at hb
  have hb2 := (sortRollRows_perm _).mem_iff.mp hb
  obtain ⟨kv, hkv, rfl⟩ := List.mem_map.mp hb2
  have hymf := ymfield_foldl_rollup roster none none (rollupItems projects) []
    (by simp) kv hkv
  have hnd := keys_foldl_rollup_nodup roster none none (rollupItems projects) []
    (by simp)
  have hlookup : ((rollupItems projects).foldl (rollupStep roster none none)
      []).lookup kv.1 = some kv.2 :=
    assoc_mem_lookup (by rwa [Prod.mk.eta]) hnd
  rw [lookup_foldl_rollup roster none none (rollupItems projects) [] kv.1]
    at hlookup
  have hcs_eq : (rollupItems projects).filter
      (fun it => inYmRange (itemYm it) none none && itemYm it == kv.1)
      = bucketItems projects kv.1 := by
    rw [bucketItems]
    apply List.filter_congr
    intro it hit
    have hrange : inYmRange (itemYm it) none none = true := rfl
    rw [hrange]
    simp [itemYm]
  rw [hcs_eq] at hlookup
  have hval : kv.2 = applyContribs roster (freshRollRow kv.1)
      (bucketItems projects kv.1) := by
    simp only [List.lookup] at hlookup
    rcases hc : bucketItems projects kv.1 with _ | ⟨c0, cs0⟩
    · rw [hc] at hlookup
      simp at hlookup
    · rw [hc] at hlookup
      exact (Option.some.inj hlookup).symm
  have hitem : ∀ it ∈ bucketItems projects kv.1,
      it.1 ∈ projects ∧ it.2.2 ∈ it.1.months := by
    intro it hit
    have hri : it ∈ rollupItems projects := by
      rw [bucketItems] at hit
      exact List.mem_of_mem_filter hit
    simp only [rollupItems, List.mem_flatMap, List.mem_map] at hri
    obtain ⟨p, hp, im, him, rfl⟩ := hri
    exact ⟨hp, snd_mem_of_mem_enumFrom p.months 0 im him⟩
  have hml : ∀ it ∈ bucketItems projects kv.1,
      monthHL roster it.1 it.2.2
        = ((computeMonthStats (projectMembers it.1 roster) it.2.2
              it.1.overheadPerHour).hours,
           (computeMonthStats (projectMembers it.1 roster) it.2.2
              it.1.overheadPerHour).labor) := by
    intro it hit
    obtain ⟨hp, hm⟩ := hitem it hit
    obtain ⟨hk, hv, _, _⟩ := hmonths it.1 hp it.2.2 hm
    exact monthHL_cms roster it.1 it.2.2 it.1.overheadPerHour hroster hk hv
  rw [hymf, hval]
  refine ⟨?_, ?_, ?_, ?_, ?_⟩
  · rw [applyContribs_hours]
    simp only [freshRollRow, zero_add]
    apply congrArg
    apply List.map_congr_left
    intro it hit
    rw [hml it hit]
  · rw [applyContribs_labor]
    simp only [freshRollRow, zero_add]
    apply congrArg
    apply List.map_congr_left
    intro it hit
    rw [hml it hit]
  · rw [applyContribs_overhead]
    rw [jsSum]
    have hmaps : (bucketItems projects kv.1).map (fun it =>
          jsMul (some (monthHL roster it.1 it.2.2).1) it.1.overheadPerHour)
        = (bucketItems projects kv.1).map (fun it =>
            (computeMonthStats (projectMembers it.1 roster) it.2.2
              it.1.overheadPerHour).overhead) := by
      apply List.map_congr_left
      intro it hit
      rw [hml it hit, computeMonthStats_overhead, jsMul_comm]
    rw [hmaps]
    rfl
  · rw [applyContribs_expenses]
    have hmaps : (bucketItems projects kv.1).map (fun it => it.2.2.expenses)
        = ((bucketItems projects kv.1).map (fun it =>
            (computeMonthStats (projectMembers it.1 roster) it.2.2
              it.1.overheadPerHour).expenses)).map some := by
      rw [List.map_map]
      apply List.map_congr_left
      intro it hit
      obtain ⟨hp, hm⟩ := hitem it hit
      obtain ⟨-, -, hex, -⟩ := hmonths it.1 hp it.2.2 hm
      obtain ⟨q, hq⟩ := Option.isSome_iff_exists.mp hex
      simp [hq, computeMonthStats_expenses, toNumber]
    rw [hmaps]
    simp only [freshRollRow]
    rw [foldl_jsAdd_some]
    simp
  · rw [applyContribs_revenue]
    have hmaps : (bucketItems projects kv.1).map (fun it => it.2.2.revenue)
        = ((bucketItems projects kv.1).map (fun it =>
            (computeMonthStats (projectMembers it.1 roster) it.2.2
              it.1.overheadPerHour).revenue)).map some := by
      rw [List.map_map]
      apply List.map_congr_left
      intro it hit
      obtain ⟨hp, hm⟩ := hitem it hit
      obtain ⟨-, -, -, hrev⟩ := hmonths it.1 hp it.2.2 hm
      obtain ⟨q, hq⟩ := Option.isSome_iff_exists.mp hrev
      simp [hq, computeMonthStats_revenue, toNumber]
    rw [hmaps]
    simp only [freshRollRow]
    rw [foldl_jsAdd_some]
    simp

set_option maxHeartbeats 1000000 in
/-- Claim C6 counterexample: with a negative allocation value (-50 for a
member with 160 base hours) the rollup bucket records 0 hours (the `alloc
<= 0` guard skips it) while the field-wise sum of `computeMonthStats` over
the same project-months is -80, so the agreement does not hold for every
projects list and roster. -/
theorem claim_C6_counterexample :
    (buildCalendarRollupFiltered [negAllocProject] [scenarioPerson] none
        none).map RollRow.hours = [0]
    ∧ ((bucketItems [negAllocProject] "2024-01").map (fun it =>
        (computeMonthStats (projectMembers it.1 [scenarioPerson]) it.2.2
          it.1.overheadPerHour).hours)).sum = -80 := by
  constructor
  · have hml : monthHL [scenarioPerson] negAllocProject negAllocMonth = (0, 0) := by
      simp +decide [monthHL, projectMembers, negAllocProject, negAllocMonth,
        scenarioPerson, List.lookup, toNumber]
    simp +decide [buildCalendarRollupFiltered, rollupItems, List.enum,
      rollupStep, itemYm, negAllocProject, inYmRange, updateRows, rollupAdd,
      hml, freshRollRow, sortRollRows, sortedInsertRow, jsAdd, jsMul,
      negAllocMonth]
  · have hcms : (computeMonthStats (projectMembers negAllocProject
        [scenarioPerson]) negAllocMonth negAllocProject.overheadPerHour).hours
        = -80 := by
      simp +decide [computeMonthStats, projectMembers, negAllocProject,
        negAllocMonth, scenarioPerson, toNumber]
      norm_num
    have hbi : bucketItems [negAllocProject] "2024-01"
        = [(negAllocProject, 0, negAllocMonth)] := by
      decide
    rw [hbi]
    simp only [List.map_cons, List.map_nil, List.sum_cons, List.sum_nil]
    rw [hcms]
    norm_num

set_option maxHeartbeats 1000000 in
theorem claim_C6_witness :
    (⟨"2024-11", "Nov 2024", 4000, some 800, some 7, some 4807, some 100, 80⟩ :
        RollRow) ∈
      buildCalendarRollupFiltered [rollupWitnessProject] [scenarioPerson] none none
    ∧ (⟨"2024-11", "Nov 2024", 4000, some 800, some 7, some 4807, some 100, 80⟩ :
        RollRow).hours
      = ((bucketItems [rollupWitnessProject] "2024-11").map (fun it =>
          (computeMonthStats (projectMembers it.1 [scenarioPerson]) it.2.2
            it.1.overheadPerHour).hours)).sum := by
  have hml : monthHL [scenarioPerson] rollupWitnessProject rollupWitnessMonth
      = (80, 4000) := by
    simp +decide [monthHL, projectMembers, rollupWitnessProject,
      rollupWitnessMonth, scenarioPerson, List.lookup, toNumber,
      effectiveHourlyRate, effectiveMonthlyComp, isFullTimeLike]
    norm_num
  have hbuild : buildCalendarRollupFiltered [rollupWitnessProject]
      [scenarioPerson] none none
      = [⟨"2024-11", "Nov 2024", 4000, some 800, some 7, some 4807, some 100, 80⟩] := by
    simp only [rollupWitnessProject, rollupWitnessMonth, scenarioPerson] at hml
    simp +decide [buildCalendarRollupFiltered, rollupItems, List.enum,
      rollupStep, itemYm, rollupWitnessProject, rollupWitnessMonth,
      scenarioPerson, inYmRange, updateRows, rollupAdd, hml, freshRollRow,
      sortRollRows, sortedInsertRow, jsAdd, jsMul, ymFromStartIndex, splitDash,
      toNatJS, parseNatChars, digitVal?, pad2, labelFromYm, monthShort]
    norm_num
  have hmem : (⟨"2024-11", "Nov 2024", 4000, some 800, some 7, some 4807,
      some 100, 80⟩ : RollRow) ∈
      buildCalendarRollupFiltered [rollupWitnessProject] [scenarioPerson]
        none none := by
    rw [hbuild]
    exact List.mem_singleton.mpr rfl
  have h := claim_C6 [rollupWitnessProject] [scenarioPerson] (by decide)
    (by decide) _ hmem
  exact ⟨hmem, h.1⟩

/-! Congruence helpers for membership-based invariances. -/

theorem foldl_congr_mem {α β : Type} (f g : β → α → β) (l : List α) (a : β)
    (h : ∀ b x, x ∈ l → f b x = g b x) : l.foldl f a = l.foldl g a := by
  induction l generalizing a with
  | nil => rfl
  | cons x xs ih =>
    rw [List.foldl_cons, List.foldl_cons, h a x (List.mem_cons_self x xs)]
    exact ih _ (fun b y hy => h b y (List.mem_cons_of_mem _ hy))

theorem lookup_middle_ne {pid x : String} (hne : x ≠ pid)
    (l1 l2 : List (String × JsVal)) (v : JsVal) :
    (l1 ++ (pid, v) :: l2).lookup x = (l1 ++ l2).lookup x := by
  induction l1 with
  | nil =>
    have hb : (x == pid) = false := by simpa [beq_iff_eq] using hne
    simp [List.lookup, hb]
  | cons kv rest ih =>
    obtain ⟨k, w⟩ := kv
    by_cases hk : x = k
    · subst hk
      simp [List.lookup]
    · have hb : (x == k) = false := by simpa [beq_iff_eq] using hk
      simp [List.lookup, hb, ih]

theorem find?_filter_cons_id (roster : List RosterPerson) (mids : List String)
    (pid eid : String) (hne : eid ≠ pid) :
    (roster.filter (fun r => (pid :: mids).contains r.id)).find?
        (fun x => x.id == eid)
      = (roster.filter (fun r => mids.contains r.id)).find?
        (fun x => x.id == eid) := by
  induction roster with
  | nil => simp
  | cons x rest ih =>
    rw [List.filter_cons, List.filter_cons]
    have hA : mids.contains x.id = true →
        (pid :: mids).contains x.id = true := by
      intro hc
      simp only [List.contains_cons, Bool.or_eq_true]
      exact Or.inr hc
    have hB : x.id = pid → (pid :: mids).contains x.id = true := by
      intro hxp
      simp only [List.contains_cons, Bool.or_eq_true, beq_iff_eq]
      exact Or.inl hxp
    by_cases hxp : x.id = pid
    · by_cases hc : mids.contains x.id = true
      · rw [if_pos (hA hc), if_pos hc]
        simp only [List.find?_cons]
        have hx : (x.id == eid) = false := by
          simp only [beq_eq_false_iff_ne, ne_eq, hxp]
          exact fun hh => hne hh.symm
        simp only [hx]
        exact ih
      · have hcf : mids.contains x.id = false := by simpa using hc
        rw [if_pos (hB hxp), if_neg (by simpa using hcf)]
        simp only [List.find?_cons]
        have hx : (x.id == eid) = false := by
          simp only [beq_eq_false_iff_ne, ne_eq, hxp]
          exact fun hh => hne hh.symm
        simp only [hx]
        exact ih
    · by_cases hc : mids.contains x.id = true
      · rw [if_pos (hA hc), if_pos hc]
        simp only [List.find?_cons]
        cases hx : (x.id == eid) with
        | true => simp only [hx]
        | false =>
          simp only [hx]
          exact ih
      · have hcf : mids.contains x.id = false := by simpa using hc
        have hC : ¬ (pid :: mids).contains x.id = true := by
          simp only [List.contains_cons, Bool.or_eq_true, beq_iff_eq]
          rintro (h | h)
          · exact hxp h
          · rw [hcf] at h
            exact absurd h (by simp)
        rw [if_neg hC, if_neg (by simpa using hcf)]
        exact ih

theorem cms_people_congr (people1 people2 : List RosterPerson) (m : MonthRow)
    (oph : JsVal)
    (hfind : ∀ e ∈ m.personAllocations,
      people1.find? (fun x => x.id == e.1) = people2.find? (fun x => x.id == e.1)) :
    computeMonthStats people1 m oph = computeMonthStats people2 m oph := by
  simp only [computeMonthStats]
  rw [foldl_congr_mem _ _ m.personAllocations (0, 0)
    (fun b e he => by rw [hfind e he])]

/-- Claim C9 counterexample: an allocation entry for a roster person who is
NOT in `project.memberIds` contributes nothing to `computeProjectTotals` —
the same project with the person added to memberIds yields 80 hours, so
calculations key off memberIds ∩ allocations, not off the allocation map
alone. -/
theorem claim_C9_counterexample :
    (computeProjectTotals nonMemberProject [scenarioPerson]).totalHours = 0
    ∧ (computeProjectTotals memberProject [scenarioPerson]).totalHours = 80 := by
  constructor
  · simp +decide [computeProjectTotals, projectMembers, nonMemberProject,
      allocOnlyMonth, scenarioPerson, computeMonthStats, toNumber]
  · simp +decide [computeProjectTotals, projectMembers, memberProject,
      allocOnlyMonth, scenarioPerson, computeMonthStats, toNumber,
      effectiveHourlyRate, effectiveMonthlyComp, isFullTimeLike]
    norm_num

theorem foldl_enumFrom_congr {α β : Type} (m1 m2 : α) (F : β → ℕ × α → β)
    (h : ∀ b i, F b (i, m1) = F b (i, m2)) :
    ∀ (pre post : List α) (n : ℕ) (acc : β),
    (List.enumFrom n (pre ++ m1 :: post)).foldl F acc
      = (List.enumFrom n (pre ++ m2 :: post)).foldl F acc := by
  intro pre
  induction pre with
  | nil =>
    intro post n acc
    simp only [List.nil_append]
    rw [List.enumFrom, List.enumFrom, List.foldl_cons, List.foldl_cons, h]
  | cons a pre ih =>
    intro post n acc
    simp only [List.cons_append]
    rw [List.enumFrom, List.enumFrom, List.foldl_cons, List.foldl_cons]
    exact ih post (n + 1) (F acc (n, a))

/-- Claim C9 (amended): contribution requires BOTH a memberIds listing and
an allocation entry.  (1) Removing an allocation entry whose person id is
not in `memberIds` leaves `computeProjectTotals` unchanged — such entries
contribute nothing.  (2) Adding a member id that appears in no month's
allocation map leaves `computeProjectTotals` unchanged — membership
without allocations contributes nothing.  (3) The utilization matrix's
hours accumulator `personTotalHours` likewise ignores allocation entries
for ids not in the project's memberIds. -/
theorem claim_C9 :
    (∀ (roster : List RosterPerson) (idp namep statusp : String)
        (oph tmp : JsVal) (startp : String) (mids : List String)
        (pre post : List MonthRow) (mid mlabel : String)
        (l1 l2 : List (String × JsVal)) (pid : String) (v : JsVal)
        (exps rev : JsVal), pid ∉ mids →
        computeProjectTotals
            ⟨idp, namep, statusp, oph, tmp, startp, mids,
              pre ++ ⟨mid, mlabel, l1 ++ (pid, v) :: l2, exps, rev⟩ :: post⟩
            roster
          = computeProjectTotals
              ⟨idp, namep, statusp, oph, tmp, startp, mids,
                pre ++ ⟨mid, mlabel, l1 ++ l2, exps, rev⟩ :: post⟩ roster)
    ∧ (∀ (project : Project) (roster : List RosterPerson) (pid : String),
        (∀ m ∈ project.months, ∀ e2 ∈ m.personAllocations, e2.1 ≠ pid) →
        computeProjectTotals
            { project with memberIds := pid :: project.memberIds } roster
          = computeProjectTotals project roster)
    ∧ (∀ (people : List RosterPerson) (ms : List String) (qid ym : String)
        (P1 P2 : List Project) (idp namep statusp : String) (oph tmp : JsVal)
        (startp : String) (mids : List String) (pre post : List MonthRow)
        (mid mlabel : String) (l1 l2 : List (String × JsVal)) (pid : String)
        (v : JsVal) (exps rev : JsVal), pid ∉ mids →
        personTotalHours
            (P1 ++ ⟨idp, namep, statusp, oph, tmp, startp, mids,
              pre ++ ⟨mid, mlabel, l1 ++ (pid, v) :: l2, exps, rev⟩ :: post⟩ :: P2)
            people ms qid ym
          = personTotalHours
              (P1 ++ ⟨idp, namep, statusp, oph, tmp, startp, mids,
                pre ++ ⟨mid, mlabel, l1 ++ l2, exps, rev⟩ :: post⟩ :: P2)
              people ms qid ym) := by
  refine ⟨?_, ?_, ?_⟩
  · intro roster idp namep statusp oph tmp startp mids pre post mid mlabel
      l1 l2 pid v exps rev hpid
    have hmm : ∀ q ∈ roster.filter (fun r => mids.contains r.id), q.id ≠ pid := by
      intro q hq hqe
      have h2 := (List.mem_filter.mp hq).2
      rw [hqe] at h2
      exact hpid (by simpa using h2)
    have hcms := cms_dangling (roster.filter (fun r => mids.contains r.id)) oph
      mid mlabel l1 l2 pid v exps rev hmm
    simp only [computeProjectTotals, projectMembers, List.foldl_append,
      List.foldl_cons]
    rw [hcms]
  · intro project roster pid hall
    have hcms : ∀ m ∈ project.months,
        computeMonthStats
            (roster.filter (fun r => (pid :: project.memberIds).contains r.id))
            m project.overheadPerHour
          = computeMonthStats
              (roster.filter (fun r => project.memberIds.contains r.id))
              m project.overheadPerHour :=
      fun m hm => cms_people_congr _ _ m project.overheadPerHour
        (fun e2 he2 =>
          find?_filter_cons_id roster project.memberIds pid e2.1 (hall m hm e2 he2))
    simp only [computeProjectTotals, projectMembers]
    rw [foldl_congr_mem
      (fun (a : ℚ × ℚ × JsVal × ℚ × ℚ) m =>
        let s := computeMonthStats
          (roster.filter (fun r => (pid :: project.memberIds).contains r.id))
          m project.overheadPerHour
        (a.1 + s.hours, a.2.1 + s.labor, jsAdd a.2.2.1 s.overhead,
          a.2.2.2.1 + s.expenses, a.2.2.2.2 + s.revenue))
      (fun (a : ℚ × ℚ × JsVal × ℚ × ℚ) m =>
        let s := computeMonthStats
          (roster.filter (fun r => project.memberIds.contains r.id))
          m project.overheadPerHour
        (a.1 + s.hours, a.2.1 + s.labor, jsAdd a.2.2.1 s.overhead,
          a.2.2.2.1 + s.expenses, a.2.2.2.2 + s.revenue))
      project.months (0, 0, some 0, 0, 0)
      (fun b m hm => by
        dsimp only
        rw [hcms m hm])]
  · intro people ms qid ym P1 P2 idp namep statusp oph tmp startp mids pre post
      mid mlabel l1 l2 pid v exps rev hpid
    have hAH : ∀ (mm : List RosterPerson) (x : String), x ≠ pid →
        allocHours mm ⟨mid, mlabel, l1 ++ (pid, v) :: l2, exps, rev⟩ x
          = allocHours mm ⟨mid, mlabel, l1 ++ l2, exps, rev⟩ x := by
      intro mm x hx
      simp only [allocHours]
      rw [lookup_middle_ne hx]
    simp only [personTotalHours, List.foldl_append, List.foldl_cons, List.enum]
    congr 1
    apply foldl_enumFrom_congr
    intro b i
    simp only
    by_cases hms : ms.contains (ymFromStartIndex startp i) = true
    · rw [if_pos hms, if_pos hms]
      apply foldl_congr_mem
      intro b2 personId hpd
      by_cases hcond : (personId == qid && ymFromStartIndex startp i == ym) = true
      · rw [if_pos hcond, if_pos hcond]
        have hne : personId ≠ pid := by
          intro hh
          subst hh
          exact hpid hpd
        rw [hAH people personId hne]
      · rw [if_neg hcond, if_neg hcond]
    · rw [if_neg hms, if_neg hms]

theorem claim_C9_witness :
    computeProjectTotals nonMemberProject [scenarioPerson]
      = computeProjectTotals
          ⟨"pr9", "M", "Active", some 0, some 0, "2024-01", [],
            [⟨"m10", "", [], some 0, some 0⟩]⟩ [scenarioPerson] :=
  claim_C9.1 [scenarioPerson] "pr9" "M" "Active" (some 0) (some 0) "2024-01"
    [] [] [] "m10" "" [] [] "p1" (some 50) (some 0) (some 0) (by decide)

/-! The utilization matrix computes hours from a person's id and base
hours only; the activity flags never enter the numbers. -/

theorem find?_map_base_replace (p : RosterPerson) (a : Option Bool)
    (d : Option String) (x : String) :
    ∀ (A B : List RosterPerson),
    ((A ++ p :: B).find? (fun r => r.id == x)).map RosterPerson.baseMonthlyHours
      = ((A ++ { p with isActive := a, inactiveDate := d } :: B).find?
          (fun r => r.id == x)).map RosterPerson.baseMonthlyHours := by
  intro A
  induction A with
  | nil =>
    intro B
    simp only [List.nil_append, List.find?_cons]
    cases hpx : (p.id == x) with
    | true => simp [hpx]
    | false => simp [hpx]
  | cons h A ih =>
    intro B
    simp only [List.cons_append, List.find?_cons]
    cases hh : (h.id == x) with
    | true => simp [hh]
    | false =>
      simp only [hh]
      exact ih B

theorem allocHours_replace (p : RosterPerson) (a : Option Bool)
    (d : Option String) (m : MonthRow) (x : String)
    (A B : List RosterPerson) :
    allocHours (A ++ p :: B) m x
      = allocHours (A ++ { p with isActive := a, inactiveDate := d } :: B) m x := by
  simp only [allocHours]
  have hfb := find?_map_base_replace p a d x A B
  cases h1 : (A ++ p :: B).find? (fun r => r.id == x) with
  | none =>
    rw [h1] at hfb
    cases h2 : (A ++ { p with isActive := a, inactiveDate := d } :: B).find?
        (fun r => r.id == x) with
    | none => rfl
    | some p2 =>
      rw [h2] at hfb
      simp at hfb
  | some p1 =>
    rw [h1] at hfb
    cases h2 : (A ++ { p with isActive := a, inactiveDate := d } :: B).find?
        (fun r => r.id == x) with
    | none =>
      rw [h2] at hfb
      simp at hfb
    | some p2 =>
      rw [h2] at hfb
      simp only [Option.map_some', Option.some.injEq] at hfb
      dsimp only
      rw [hfb]

theorem personTotalHours_replace (p : RosterPerson) (a : Option Bool)
    (d : Option String) :
    ∀ (projects : List Project) (ms : List String) (pid ym : String)
      (A B : List RosterPerson),
    personTotalHours projects (A ++ p :: B) ms pid ym
      = personTotalHours projects
          (A ++ { p with isActive := a, inactiveDate := d } :: B) ms pid ym := by
  intro projects ms pid ym A B
  simp only [personTotalHours]
  apply foldl_congr_mem
  intro b proj hproj
  dsimp only
  apply foldl_congr_mem
  intro b2 im him
  dsimp only
  by_cases hms : ms.contains (ymFromStartIndex proj.startMonthISO im.1) = true
  · rw [if_pos hms, if_pos hms]
    apply foldl_congr_mem
    intro b3 personId hpd
    by_cases hcond : (personId == pid
        && ymFromStartIndex proj.startMonthISO im.1 == ym) = true
    · rw [if_pos hcond, if_pos hcond, allocHours_replace p a d im.2 personId A B]
    · rw [if_neg hcond, if_neg hcond]
  · rw [if_neg hms, if_neg hms]

theorem personProjectHours_replace (p : RosterPerson) (a : Option Bool)
    (d : Option String) :
    ∀ (projects : List Project) (ms : List String) (pid projId ym : String)
      (A B : List RosterPerson),
    personProjectHours projects (A ++ p :: B) ms pid projId ym
      = personProjectHours projects
          (A ++ { p with isActive := a, inactiveDate := d } :: B) ms pid projId
          ym := by
  intro projects ms pid projId ym A B
  simp only [personProjectHours]
  apply foldl_congr_mem
  intro b proj hproj
  dsimp only
  apply foldl_congr_mem
  intro b2 im him
  dsimp only
  by_cases hms : ms.contains (ymFromStartIndex proj.startMonthISO im.1) = true
  · rw [if_pos hms, if_pos hms]
    apply foldl_congr_mem
    intro b3 personId hpd
    by_cases hcond : (personId == pid && proj.id == projId
        && ymFromStartIndex proj.startMonthISO im.1 == ym) = true
    · rw [if_pos hcond, if_pos hcond, allocHours_replace p a d im.2 personId A B]
    · rw [if_neg hcond, if_neg hcond]
  · rw [if_neg hms, if_neg hms]

theorem mkPersonRow_strip_replace (p : RosterPerson) (a : Option Bool)
    (d : Option String) (projects : List Project) (ms : List String)
    (A B : List RosterPerson) (x y : RosterPerson) (hid : x.id = y.id)
    (hbase : x.baseMonthlyHours = y.baseMonthlyHours) :
    ((mkPersonRow projects (A ++ p :: B) ms x).total,
        (mkPersonRow projects (A ++ p :: B) ms x).byProject)
      = ((mkPersonRow projects
            (A ++ { p with isActive := a, inactiveDate := d } :: B) ms y).total,
          (mkPersonRow projects
            (A ++ { p with isActive := a, inactiveDate := d } :: B) ms
            y).byProject) := by
  simp only [mkPersonRow, hid, hbase, personTotalHours_replace p a d,
    personProjectHours_replace p a d]

theorem mkPersonRow_person (projects : List Project) (people : List RosterPerson)
    (ms : List String) (person : RosterPerson) :
    (mkPersonRow projects people ms person).person = person := rfl

theorem utilRows_strip_core (projects : List Project) (ms : List String)
    (p : RosterPerson) (a : Option Bool) (d : Option String)
    (A B : List RosterPerson) :
    ((A ++ p :: B).map fun x =>
        ((mkPersonRow projects (A ++ p :: B) ms x).total,
          (mkPersonRow projects (A ++ p :: B) ms x).byProject))
      = ((A ++ { p with isActive := a, inactiveDate := d } :: B).map fun x =>
          ((mkPersonRow projects
              (A ++ { p with isActive := a, inactiveDate := d } :: B) ms
              x).total,
            (mkPersonRow projects
              (A ++ { p with isActive := a, inactiveDate := d } :: B) ms
              x).byProject)) := by
  rw [List.map_append, List.map_append, List.map_cons, List.map_cons]
  congr 1
  · exact List.map_congr_left fun x _ =>
      mkPersonRow_strip_replace p a d projects ms A B x x rfl rfl
  · congr 1
    · exact mkPersonRow_strip_replace p a d projects ms A B p
        { p with isActive := a, inactiveDate := d } rfl rfl
    · exact List.map_congr_left fun x _ =>
        mkPersonRow_strip_replace p a d projects ms A B x x rfl rfl

theorem marchHours_inactive :
    personTotalHours [marchProject] [inactivePerson] ["2024-03"] "p1" "2024-03"
      = 160 := by
  simp +decide [personTotalHours, allocHours, marchProject, marchMonth,
    inactivePerson, List.enum, toNumber]

theorem marchHours_active :
    personTotalHours [marchProject] [activePerson] ["2024-03"] "p1" "2024-03"
      = 160 := by
  simp +decide [personTotalHours, allocHours, marchProject, marchMonth,
    activePerson, List.enum, toNumber]

theorem marchRows_inactive :
    (buildUtilizationMatrixWithProjects [marchProject] [inactivePerson]
        none none none).rows
      = [mkPersonRow [marchProject] [inactivePerson] ["2024-03"]
          inactivePerson] := by
  have hms : utilMonths [marchProject] none none = ["2024-03"] := by decide
  have hd : decide (0 < personTotalHours [marchProject] [inactivePerson]
      ["2024-03"] "p1" "2024-03") = true := by
    rw [marchHours_inactive]
    decide
  have hshow : shouldShowPerson [marchProject] [inactivePerson] ["2024-03"]
      inactivePerson = true := by
    have hid : inactivePerson.id = "p1" := rfl
    simp [shouldShowPerson, hid, hd]
  simp +decide [buildUtilizationMatrixWithProjects, hms, utilRows, utilPeople,
    mkPersonRow_person, hshow]

theorem marchRows_active :
    (buildUtilizationMatrixWithProjects [marchProject] [activePerson]
        none none none).rows
      = [mkPersonRow [marchProject] [activePerson] ["2024-03"]
          activePerson] := by
  have hms : utilMonths [marchProject] none none = ["2024-03"] := by decide
  have hd : decide (0 < personTotalHours [marchProject] [activePerson]
      ["2024-03"] "p1" "2024-03") = true := by
    rw [marchHours_active]
    decide
  have hshow : shouldShowPerson [marchProject] [activePerson] ["2024-03"]
      activePerson = true := by
    have hid : activePerson.id = "p1" := rfl
    simp [shouldShowPerson, hid, hd]
  simp +decide [buildUtilizationMatrixWithProjects, hms, utilRows, utilPeople,
    mkPersonRow_person, hshow]

set_option maxHeartbeats 1000000 in
theorem marchCells_inactive :
    (mkPersonRow [marchProject] [inactivePerson] ["2024-03"]
        inactivePerson).total.cells
      = [⟨"2024-03", "Mar 2024", 160, 1⟩] := by
  have hhi := marchHours_inactive
  simp only [inactivePerson] at hhi
  simp +decide [mkPersonRow, inactivePerson, toNumber, hhi, labelFromYm,
    splitDash, toNatJS, parseNatChars, digitVal?, monthShort]

set_option maxHeartbeats 1000000 in
theorem marchCells_active :
    (mkPersonRow [marchProject] [activePerson] ["2024-03"]
        activePerson).total.cells
      = [⟨"2024-03", "Mar 2024", 160, 1⟩] := by
  have hha := marchHours_active
  simp only [activePerson] at hha
  simp +decide [mkPersonRow, activePerson, toNumber, hha, labelFromYm,
    splitDash, toNatJS, parseNatChars, digitVal?, monthShort]

/-- C10 counterexample: the heat matrix cell is only `{ym, label, hours, util}`
and carries no inactive-in-month flag. The person `inactivePerson` is inactive
in 2024-03 by the repo's own `isPersonInactiveInMonth`, yet the cells returned
for them are identical to the cells returned for the same person marked active
— nothing in the returned data distinguishes the two — while the util value is
1, not zeroed. The flag exists only in the presentation layer's separate
`isPersonInactiveInMonth` recomputation. -/
theorem claim_C10_counterexample :
    ((buildUtilizationMatrixWithProjects [marchProject] [inactivePerson]
          none none none).rows.map (fun r => r.total.cells)
        = (buildUtilizationMatrixWithProjects [marchProject] [activePerson]
            none none none).rows.map (fun r => r.total.cells))
    ∧ ((buildUtilizationMatrixWithProjects [marchProject] [inactivePerson]
          none none none).rows.map (fun r => r.total.cells)
        = [[⟨"2024-03", "Mar 2024", 160, 1⟩]])
    ∧ isPersonInactiveInMonth inactivePerson "2024-03" = true := by
  refine ⟨?_, ?_, by decide⟩
  · rw [marchRows_inactive, marchRows_active]
    simp only [List.map_cons, List.map_nil, marchCells_inactive,
      marchCells_active]
  · rw [marchRows_inactive]
    simp only [List.map_cons, List.map_nil, marchCells_inactive]

/-- C10 (amended): the utilization matrix rows carry no inactive-in-month flag;
their numeric content is invariant under any change of one person's `isActive`
and `inactiveDate` fields (conjunct 1), and the util value of every returned
cell is exactly hours divided by the row person's clamped base hours —
in particular it is never zeroed for inactivity (conjunct 2). The
inactive-in-month marker is recomputed by the presentation layer via
`isPersonInactiveInMonth`, outside the returned data. -/
theorem claim_C10 (projects : List Project) (sel : Option (List String))
    (s e : Option String) (l1 l2 : List RosterPerson) (p : RosterPerson)
    (a : Option Bool) (d : Option String) :
    ((utilRows projects (l1 ++ p :: l2) sel s e).map
        fun r => (r.total, r.byProject))
      = ((utilRows projects
            (l1 ++ { p with isActive := a, inactiveDate := d } :: l2) sel s
            e).map fun r => (r.total, r.byProject))
    ∧ (∀ row ∈ (buildUtilizationMatrixWithProjects projects (l1 ++ p :: l2)
          sel s e).rows, ∀ cell ∈ row.total.cells,
        cell.util
          = cell.hours / max 1 (toNumber row.person.baseMonthlyHours 0)) := by
  constructor
  · simp only [utilRows, utilPeople, List.map_map]
    cases sel with
    | none =>
      exact utilRows_strip_core projects (utilMonths projects s e) p a d l1 l2
    | some ids =>
      have hqid : ({ p with isActive := a, inactiveDate := d } :
          RosterPerson).id = p.id := rfl
      simp only [List.filter_append, List.filter_cons, hqid]
      cases hc : ids.contains p.id with
      | true =>
        simp only [hc, eq_self_iff_true, if_true]
        exact utilRows_strip_core projects (utilMonths projects s e) p a d
          (l1.filter fun r => ids.contains r.id)
          (l2.filter fun r => ids.contains r.id)
      | false =>
        simp only [hc, Bool.false_eq_true, if_false]
  · intro row hrow cell hcell
    cases hp : projects.isEmpty with
    | true =>
      exfalso
      simp [buildUtilizationMatrixWithProjects, hp] at hrow
    | false =>
      simp only [buildUtilizationMatrixWithProjects, hp, Bool.false_eq_true,
        if_false] at hrow
      have hrow2 := (List.mem_filter.mp hrow).1
      rw [utilRows] at hrow2
      obtain ⟨person, hmem, rfl⟩ := List.mem_map.mp hrow2
      simp only [mkPersonRow] at hcell ⊢
      obtain ⟨ym, hym, rfl⟩ := List.mem_map.mp hcell
      rfl

/-- Witness for C10: the amended theorem applied at the 2024-03 scenario — the
flag flip from `inactivePerson` to `activePerson` leaves every row's numbers
unchanged, and the concrete cell's util obeys the hours/base formula. -/
theorem claim_C10_witness :
    ((utilRows [marchProject] [inactivePerson] none none none).map
        fun r => (r.total, r.byProject))
      = ((utilRows [marchProject] [activePerson] none none none).map
          fun r => (r.total, r.byProject))
    ∧ HeatCell.util (⟨"2024-03", "Mar 2024", 160, 1⟩ : HeatCell)
        = HeatCell.hours (⟨"2024-03", "Mar 2024", 160, 1⟩ : HeatCell)
          / max 1 (toNumber inactivePerson.baseMonthlyHours 0) := by
  constructor
  · exact (claim_C10 [marchProject] none none none [] [] inactivePerson
      (some true) (some "2024-01-01")).1
  · have hrow : mkPersonRow [marchProject] [inactivePerson] ["2024-03"]
        inactivePerson
        ∈ (buildUtilizationMatrixWithProjects [marchProject] [inactivePerson]
            none none none).rows := by
      rw [marchRows_inactive]
      exact List.mem_singleton.mpr rfl
    have hcell : (⟨"2024-03", "Mar 2024", 160, 1⟩ : HeatCell)
        ∈ (mkPersonRow [marchProject] [inactivePerson] ["2024-03"]
            inactivePerson).total.cells := by
      rw [marchCells_inactive]
      exact List.mem_singleton.mpr rfl
    exact (claim_C10 [marchProject] none none none [] [] inactivePerson
      (some true) (some "2024-01-01")).2 _ hrow _ hcell
